import Mathlib

/-!
Verification development for the bulklog buffer-and-pipe delivery engine.

Shallow embedding of:
  - src/pkg/collection/document.go  (Document, NewDocument)
  - src/engine/redis.buffer.go      (redisBuffer, RedisBuffer, Append, Flush)
  - src/engine/redis.pipe.iteration.go (getRedisIteration, setRedisIteration)

Modelling conventions:
  - The redis store is a record of three finite association maps
    (string keys -> string values, string keys -> lists, string keys -> hashes),
    mirroring the GET/SET, RPUSH/LLEN and HGET/HSET command families used by
    the source.
  - Wall-clock times and durations are modelled as integers (nanoseconds).
    The RFC3339Nano textual format of time.Format/time.Parse is abstracted to
    an injective decimal rendering, with parseTimeStr its inverse; only the
    round-trip property of the format is relied upon by the code paths.
  - uuid.New() is nondeterministic, so uuid values are explicit parameters of
    the functions that call it (one per call site).
  - An optimistic-transaction conflict of redis WATCH is injected through an
    explicit script of per-attempt conflict flags; the source consumes at most
    one attempt.
  - gob encoding of Document is not itself repository code; per the spec it is
    a self-describing binary serialization of the five document fields.  It is
    modelled as a length/field-tagged byte serialization.  Bytes are natural
    numbers < 256.
-/

/-! ## Association-list store primitives -/

/-- Replace-or-insert an entry of an association list (redis SET/HSET update
semantics: the value under the key is replaced, all other keys keep their
values). -/
def setA {α : Type} (k : String) (v : α) (m : List (String × α)) :
    List (String × α) :=
  (k, v) :: m.filter (fun p => p.1 != k)

/-- The redis store visible to the engine: string values (GET/SET),
lists (RPUSH/LLEN/LRANGE) and hashes (HGET/HSET). -/
structure Store where
  strs : List (String × String)
  lists : List (String × List String)
  hashes : List (String × List (String × String))
deriving DecidableEq, Repr

def Store.getStr (st : Store) (k : String) : Option String :=
  st.strs.lookup k

def Store.setStr (st : Store) (k v : String) : Store :=
  { st with strs := setA k v st.strs }

def Store.getList (st : Store) (k : String) : List String :=
  (st.lists.lookup k).getD []

def Store.rpush (st : Store) (k v : String) : Store :=
  { st with lists := setA k (st.getList k ++ [v]) st.lists }

def Store.setList (st : Store) (k : String) (l : List String) : Store :=
  { st with lists := setA k l st.lists }

def Store.llen (st : Store) (k : String) : Nat :=
  (st.getList k).length

def Store.hget (st : Store) (k field : String) : Option String :=
  (st.hashes.lookup k).bind (fun h => h.lookup field)

def Store.hset (st : Store) (k field v : String) : Store :=
  { st with
    hashes := setA k (setA field v ((st.hashes.lookup k).getD [])) st.hashes }

/-! ## Decimal time codec (abstraction of RFC3339Nano format/parse) -/

/-- Little-endian decimal digits, with structural fuel (fuel ≥ n suffices,
and the fuel-0 fallback agrees with the one-digit case). -/
def natDigsRevF : Nat → Nat → List Nat
  | 0, n => [n % 10]
  | fuel + 1, n => if n < 10 then [n] else (n % 10) :: natDigsRevF fuel (n / 10)

/-- Little-endian decimal digits of a natural number. -/
def natDigsRev (n : Nat) : List Nat :=
  natDigsRevF n n

def digChar (d : Nat) : Char := Char.ofNat (48 + d)

/-- Decimal rendering of a natural number, most significant digit first. -/
def natToStr (n : Nat) : List Char :=
  (natDigsRev n).reverse.map digChar

/-- Abstraction of time.Format(time.RFC3339Nano): an injective textual
rendering of an instant (nanoseconds since epoch). -/
def fmtTime (t : Int) : String :=
  if t < 0 then String.mk ('-' :: natToStr t.natAbs)
  else String.mk (natToStr t.natAbs)

def digVal (c : Char) : Option Nat :=
  if 48 ≤ c.toNat ∧ c.toNat ≤ 57 then some (c.toNat - 48) else none

def digsVal (acc : Nat) : List Char → Option Nat
  | [] => some acc
  | c :: cs =>
    match digVal c with
    | some d => digsVal (acc * 10 + d) cs
    | none => none

def parseDigs : List Char → Option Nat
  | [] => none
  | cs => digsVal 0 cs

/-- Abstraction of time.Parse(time.RFC3339Nano, s): inverse of fmtTime,
failing on any string that is not a rendered instant. -/
def parseTimeStr (s : String) : Option Int :=
  match s.data with
  | [] => none
  | c :: rest =>
    if c = '-' then (parseDigs rest).map (fun n => -(n : Int))
    else (parseDigs (c :: rest)).map (fun n => (n : Int))

/-! ## Collection and Document (src/pkg/collection) -/

/-- The attributes of collection.Collection consumed by the buffer code:
Name, FlushPeriod and RetentionPeriod (durations in nanoseconds). -/
structure Collection where
  Name : String
  FlushPeriod : Int
  RetentionPeriod : Int
deriving DecidableEq, Repr

/-- collection.Document.  Go's uuid.UUID is modelled as its 16 raw bytes,
time.Time as nanoseconds since epoch, and the []byte Body as a string. -/
structure Document where
  ID : List Nat
  PostedAt : Int
  CollectionName : String
  SchemaName : String
  Body : String
deriving DecidableEq, Repr

/-! ## gob + base64 wire codec for documents

The source encodes a Document with encoding/gob and base64.StdEncoding
(Append in src/engine/redis.buffer.go).  base64 below is the standard
RFC 4648 alphabet with padding, faithful to base64.StdEncoding.

Modelled from the spec: the gob byte format itself and the decoder are not
under src/ (the spec only requires a self-describing, round-tripping binary
serialization of the five fields); gobEncodeDoc/gobDecodeDoc realize it as a
length/field-tagged serialization. -/

def b64chars : List Char :=
  ("ABCDEFGHIJKLMNOPQRSTUVWXYZabcdefghijklmnopqrstuvwxyz0123456789+/").data

def b64c (n : Nat) : Char := b64chars.getD n 'A'

/-- base64.StdEncoding.EncodeToString on a byte list. -/
def b64enc : List Nat → List Char
  | a :: b :: c :: rest =>
    let x := a * 65536 + b * 256 + c
    b64c (x / 262144) :: b64c (x / 4096 % 64) :: b64c (x / 64 % 64) ::
      b64c (x % 64) :: b64enc rest
  | [a, b] =>
    let x := a * 65536 + b * 256
    [b64c (x / 262144), b64c (x / 4096 % 64), b64c (x / 64 % 64), '=']
  | [a] =>
    let x := a * 65536
    [b64c (x / 262144), b64c (x / 4096 % 64), '=', '=']
  | [] => []

def b64d (c : Char) : Option Nat :=
  if 65 ≤ c.toNat ∧ c.toNat ≤ 90 then some (c.toNat - 65)
  else if 97 ≤ c.toNat ∧ c.toNat ≤ 122 then some (c.toNat - 97 + 26)
  else if 48 ≤ c.toNat ∧ c.toNat ≤ 57 then some (c.toNat - 48 + 52)
  else if c = '+' then some 62
  else if c = '/' then some 63
  else none

/-- base64.StdEncoding.DecodeString. -/
def b64dec : List Char → Option (List Nat)
  | c1 :: c2 :: c3 :: c4 :: rest =>
    match b64d c1, b64d c2 with
    | some s1, some s2 =>
      if c3 = '=' then
        if c4 = '=' ∧ rest = [] then some [s1 * 4 + s2 / 16] else none
      else
        match b64d c3 with
        | some s3 =>
          if c4 = '=' then
            if rest = [] then some [s1 * 4 + s2 / 16, s2 % 16 * 16 + s3 / 4]
            else none
          else
            match b64d c4 with
            | some s4 =>
              (b64dec rest).map
                (fun t => (s1 * 4 + s2 / 16) :: (s2 % 16 * 16 + s3 / 4) ::
                  (s3 % 4 * 64 + s4) :: t)
            | none => none
        | none => none
    | _, _ => none
  | [] => some []
  | _ => none

/-- 8-byte big-endian serialization of a natural number (mod 2^64). -/
def encU64 (n : Nat) : List Nat :=
  [n / 72057594037927936 % 256, n / 281474976710656 % 256,
   n / 1099511627776 % 256, n / 4294967296 % 256,
   n / 16777216 % 256, n / 65536 % 256, n / 256 % 256, n % 256]

def decU64 : List Nat → Option (Nat × List Nat)
  | b0 :: b1 :: b2 :: b3 :: b4 :: b5 :: b6 :: b7 :: rest =>
    some (b0 * 72057594037927936 + b1 * 281474976710656 +
      b2 * 1099511627776 + b3 * 4294967296 + b4 * 16777216 +
      b5 * 65536 + b6 * 256 + b7, rest)
  | _ => none

/-- Length-prefixed serialization of a byte list (the uuid field). -/
def encBytes (bs : List Nat) : List Nat :=
  encU64 bs.length ++ (bs.map encU64).flatten

def decNats : Nat → List Nat → Option (List Nat × List Nat)
  | 0, bs => some ([], bs)
  | k + 1, bs =>
    (decU64 bs).bind fun p => (decNats k p.2).map fun q => (p.1 :: q.1, q.2)

def decBytes (bs : List Nat) : Option (List Nat × List Nat) :=
  (decU64 bs).bind fun p => decNats p.1 p.2

/-- Length-prefixed serialization of a string as its character code points. -/
def encStr (s : String) : List Nat :=
  encU64 s.length ++ (s.data.map (fun c => encU64 c.toNat)).flatten

def decChars : Nat → List Nat → Option (List Char × List Nat)
  | 0, bs => some ([], bs)
  | k + 1, bs =>
    (decU64 bs).bind fun p =>
      (decChars k p.2).map fun q => (Char.ofNat p.1 :: q.1, q.2)

def decStr (bs : List Nat) : Option (String × List Nat) :=
  (decU64 bs).bind fun p =>
    (decChars p.1 p.2).map fun q => (String.mk q.1, q.2)

/-- Sign-and-magnitude serialization of an integer (the PostedAt field). -/
def encInt (t : Int) : List Nat :=
  (if t < 0 then 1 else 0) :: encU64 t.natAbs

def decInt (bs : List Nat) : Option (Int × List Nat) :=
  match bs with
  | s :: rest =>
    (decU64 rest).map fun p =>
      (if s = 1 then -(p.1 : Int) else (p.1 : Int), p.2)
  | [] => none

/-- Modelled from the spec: the gob binary serialization of a Document
(self-describing serialization of the five fields, §6 wire format); the gob
encoder itself is stdlib, not repository source. -/
def gobEncodeDoc (d : Document) : List Nat :=
  encBytes d.ID ++ encInt d.PostedAt ++ encStr d.CollectionName ++
    encStr d.SchemaName ++ encStr d.Body

/-- Modelled from the spec: the document decoder (used by the convey side,
which is not under src/); exact inverse of gobEncodeDoc. -/
def gobDecodeDoc (bs : List Nat) : Option Document :=
  (decBytes bs).bind fun p1 =>
  (decInt p1.2).bind fun p2 =>
  (decStr p2.2).bind fun p3 =>
  (decStr p3.2).bind fun p4 =>
  (decStr p4.2).bind fun p5 =>
  if p5.2 = [] then some ⟨p1.1, p2.1, p3.1, p4.1, p5.1⟩ else none

/-- The exact string Append pushes for a document: base64 of the gob bytes
(docBase64 in the source). -/
def encodeDoc (d : Document) : String :=
  String.mk (b64enc (gobEncodeDoc d))

def decodeDoc (s : String) : Option Document :=
  (b64dec s.data).bind gobDecodeDoc

/-! ## redisBuffer (src/engine/redis.buffer.go) -/

/-- The engine-side state of a redis buffer (struct redisBuffer).  The redis
client handle and the close channel are not data; consumers is the key set of
the consumer map.  The source field pipeKeyPrefix is named pipeKeyPref
here. -/
structure redisBuffer where
  collection : Collection
  consumers : List String
  bufferKey : String
  timeKey : String
  pipeKeyPref : String
  flushedAt : Int
deriving DecidableEq, Repr

/-- Modelled from the spec: redisConveyAll (not under src/) enumerates the
pipe keys under the prefix and spawns a convey task per pipe; it performs no
store writes, so on the store it is the identity. -/
def redisConveyAll (st : Store) (_pipeKeyPref : String)
    (_consumers : List String) : Store :=
  st

/-- RedisBuffer constructor: builds the three key names from the collection
name, initializes the in-memory flushedAt to now, and runs redisConveyAll.
No store key is written. -/
def RedisBuffer (collec : Collection) (consumers : List String) (now : Int)
    (st : Store) : redisBuffer × Store :=
  let rbuffer : redisBuffer :=
    { collection := collec
      consumers := consumers
      bufferKey := "bulklog." ++ collec.Name ++ ".buffer"
      timeKey := "bulklog." ++ collec.Name ++ ".flushedAt"
      pipeKeyPref := "bulklog." ++ collec.Name ++ ".pipes"
      flushedAt := now }
  (rbuffer, redisConveyAll st rbuffer.pipeKeyPref rbuffer.consumers)

/-- Append (redisBuffer.Append): gob+base64 encode the document and RPUSH it
onto the buffer list.  A store-side RPUSH failure is injected through
pushErr; the gob encoding of this struct cannot fail and is modelled total. -/
def append (b : redisBuffer) (doc : Document) (pushErr : Option String)
    (st : Store) : Except String Unit × Store :=
  let docBase64 := encodeDoc doc
  match pushErr with
  | some e => (.error ("(RPUSH collection.buffer docBase64)." ++ e), st)
  | none => (.ok (), st.rpush b.bufferKey docBase64)

/-- Sequence of successful Appends. -/
def appendAll (b : redisBuffer) (docs : List Document) (st : Store) : Store :=
  docs.foldl (fun s d => (append b d none s).2) st

/-- Modelled from the spec: value stored per consumer in the pipe consumers
hash, a serialization of the pair (done, nextAttemptAt) (§6 key layout). -/
def consumerEntry (done : Bool) (nextAttemptAt : Int) : String :=
  (if done then "true" else "false") ++ ";" ++ fmtTime nextAttemptAt

/-- Modelled from the spec: newRedisPipe (not under src/) creates the pipe
metadata hash with fields iteration=0, startedAt, flushPeriod and
retentionPeriod (§4.2 step 3, §6 key layout). -/
def newRedisPipe (st : Store) (pipeKey : String) (flushPeriod : Int)
    (retentionPeriod : Int) (now : Int) : Store :=
  (((st.hset pipeKey "iteration" "0").hset pipeKey "startedAt"
      (fmtTime now)).hset pipeKey "flushPeriod"
      (fmtTime flushPeriod)).hset pipeKey "retentionPeriod"
      (fmtTime retentionPeriod)

/-- Modelled from the spec: addRedisPipeConsumers (not under src/) writes one
entry per registered consumer, done=false and nextAttemptAt = now +
FlushPeriod (§4.2 step 3). -/
def addRedisPipeConsumers (st : Store) (pipeKey : String)
    (consumers : List String) (now : Int) (flushPeriod : Int) : Store :=
  consumers.foldl
    (fun s c =>
      s.hset (pipeKey ++ ".consumers") c
        (consumerEntry false (now + flushPeriod)))
    st

/-- Modelled from the spec: flushBuffer2RedisPipe (not under src/) moves all
currently-buffered documents, in buffer order, into the pipe document list
and clears the buffer list (§4.2 step 3, §4.2 ordering). -/
def flushBuffer2RedisPipe (st : Store) (bufferKey : String)
    (pipeKey : String) : Store :=
  let docs := st.getList bufferKey
  ((st.setList (pipeKey ++ ".buffer")
      (st.getList (pipeKey ++ ".buffer") ++ docs)).setList bufferKey [])

/-- The body of the WATCH transaction in Flush, line for line:
GET timeKey (redis.Nil on an absent key aborts), parse it into the in-memory
flushedAt when non-empty, abort silently when under FlushPeriod, LLEN the
buffer, either only SET timeKey (empty buffer) or create the pipe record,
its consumers, move the buffer and SET timeKey.  pipeID2 is the uuid of the
shadowing pipeID := uuid.New() declared inside the transaction body.
Returns (result, store, updated in-memory flushedAt). -/
def flushTx (b : redisBuffer) (now : Int) (pipeID2 : String) (st : Store) :
    Except String Unit × Store × Int :=
  match st.getStr b.timeKey with
  | none => (.error "(GET collection.flushedAt).redis: nil", st, b.flushedAt)
  | some flushedAtStr =>
    let parsed : Except String Int :=
      if flushedAtStr = "" then .ok b.flushedAt
      else
        match parseTimeStr flushedAtStr with
        | none => .error "parseFlushedAtStr.parse error"
        | some t => .ok t
    match parsed with
    | .error e => (.error e, st, b.flushedAt)
    | .ok flushedAt =>
      if now - flushedAt < b.collection.FlushPeriod then
        (.ok (), st, flushedAt)
      else
        let length := st.llen b.bufferKey
        if length = 0 then
          (.ok (), st.setStr b.timeKey (fmtTime now), now)
        else
          let pipeKey := b.pipeKeyPref ++ "." ++ pipeID2
          let st1 := newRedisPipe st pipeKey b.collection.FlushPeriod
            b.collection.RetentionPeriod now
          let st2 := addRedisPipeConsumers st1 pipeKey b.consumers now
            b.collection.FlushPeriod
          let st3 := flushBuffer2RedisPipe st2 b.bufferKey pipeKey
          let st4 := st3.setStr b.timeKey (fmtTime now)
          (.ok (), st4, now)

/-- The watch set passed to redis.Watch by Flush: bufferKey, timeKey and the
three pipe keys derived from the uuid generated before the transaction
(pipeID1). -/
def flushWatchKeys (b : redisBuffer) (pipeID1 : String) : List String :=
  let pipeKey := b.pipeKeyPref ++ "." ++ pipeID1
  [b.bufferKey, b.timeKey, pipeKey, pipeKey ++ ".consumers",
    pipeKey ++ ".buffer"]

/-- Flush (redisBuffer.Flush): one WATCH transaction, no internal retry.
conflicts is the script of optimistic-conflict outcomes; the source consumes
at most its head (a conflicting transaction is discarded and surfaced as the
TxFailed error).  Every error is wrapped with the WATCH prefix.  pipeID1 is
the uuid generated before the transaction (its keys are watched), pipeID2
the uuid generated inside the transaction body (its keys name the created
pipe). -/
def flush (b : redisBuffer) (now : Int) (_pipeID1 pipeID2 : String)
    (conflicts : List Bool) (st : Store) :
    Except String Unit × Store × Int :=
  if conflicts.headD false then
    (.error "WATCH.redis: transaction failed", st, b.flushedAt)
  else
    match flushTx b now pipeID2 st with
    | (.ok _, st', fa) => (.ok (), st', fa)
    | (.error e, st', fa) => (.error ("WATCH." ++ e), st', fa)

/-- Modelled from the spec: the flush procedure as claimed by the spec,
retrying the entire transaction on conflict up to MaxTxRetries times before
surfacing the failure (§4.2 step 3, §7 ErrStoreTransient).  The jitter of
the back-off is timing and is not modelled. -/
def MaxTxRetries : Nat := 8

def flushRetrySpec (b : redisBuffer) (now : Int) (_pipeID1 pipeID2 : String) :
    Nat → List Bool → Store → Except String Unit × Store × Int
  | 0, _, st => (.error "WATCH.redis: transaction failed", st, b.flushedAt)
  | k + 1, conflicts, st =>
    if conflicts.headD false then
      flushRetrySpec b now _pipeID1 pipeID2 k conflicts.tail st
    else
      match flushTx b now pipeID2 st with
      | (.ok _, st', fa) => (.ok (), st', fa)
      | (.error e, st', fa) => (.error ("WATCH." ++ e), st', fa)

/-! ## JSON (encoding/json as used by NewDocument)

The JSON value model mirrors what json.Unmarshal produces for an
interface/map target: the scanner's grammar, string unescaping with Go's
surrogate repair, the 10000-level nesting cap, and the float64 range check
on every number literal (all of which decide success against error).
Number literals themselves are kept as their source token; Go decodes them
to float64 and re-renders the shortest equivalent literal on Marshal, so
results about the re-encoded Body are stated on the fragment (safeJ) where
that re-rendering is the identity. -/

inductive Json where
  | null : Json
  | bool (b : Bool) : Json
  | num (tok : String) : Json
  | str (s : String) : Json
  | arr (xs : List Json) : Json
  | obj (kvs : List (String × Json)) : Json

def jws (c : Char) : Bool :=
  c = ' ' || c = '\t' || c = '\n' || c = '\r'

def skipWs : List Char → List Char
  | [] => []
  | c :: cs => if jws c then skipWs cs else c :: cs

def hexVal (c : Char) : Option Nat :=
  if 48 ≤ c.toNat ∧ c.toNat ≤ 57 then some (c.toNat - 48)
  else if 97 ≤ c.toNat ∧ c.toNat ≤ 102 then some (c.toNat - 97 + 10)
  else if 65 ≤ c.toNat ∧ c.toNat ≤ 70 then some (c.toNat - 65 + 10)
  else none

def escCharOf : Char → Option Char
  | '"' => some '"'
  | '\\' => some '\\'
  | '/' => some '/'
  | 'b' => some (Char.ofNat 8)
  | 'f' => some (Char.ofNat 12)
  | 'n' => some '\n'
  | 'r' => some '\r'
  | 't' => some '\t'
  | _ => none

/-- Body of a JSON string literal after the opening quote, fuelled (one
unit per decoding step; the wrapper passes the input length, which always
suffices): the decoded characters and the rest after the closing quote.
Surrogate \u escapes are handled as Go's unquote does (utf16.DecodeRune): a
high surrogate followed by a \u low surrogate combines into one code point;
any other surrogate escape decodes to U+FFFD, the replacement character,
consuming only itself. -/
def parseStrBodyF : Nat → List Char → Option (List Char × List Char)
  | 0, _ => none
  | _ + 1, [] => none
  | fuel + 1, c :: rest =>
    if c = '"' then some ([], rest)
    else if c = '\\' then
      match rest with
      | 'u' :: h1 :: h2 :: h3 :: h4 :: rest2 =>
        match hexVal h1, hexVal h2, hexVal h3, hexVal h4 with
        | some a, some b, some c2, some d =>
          let n := ((a * 16 + b) * 16 + c2) * 16 + d
          if 55296 ≤ n ∧ n < 56320 then
            match rest2 with
            | '\\' :: 'u' :: g1 :: g2 :: g3 :: g4 :: rest3 =>
              match hexVal g1, hexVal g2, hexVal g3, hexVal g4 with
              | some a2, some b2, some c3, some d2 =>
                let m := ((a2 * 16 + b2) * 16 + c3) * 16 + d2
                if 56320 ≤ m ∧ m < 57344 then
                  (parseStrBodyF fuel rest3).map (fun p =>
                    (Char.ofNat (65536 + (n - 55296) * 1024 + (m - 56320))
                      :: p.1, p.2))
                else
                  (parseStrBodyF fuel rest2).map (fun p =>
                    (Char.ofNat 65533 :: p.1, p.2))
              | _, _, _, _ =>
                (parseStrBodyF fuel rest2).map (fun p =>
                  (Char.ofNat 65533 :: p.1, p.2))
            | _ =>
              (parseStrBodyF fuel rest2).map (fun p =>
                (Char.ofNat 65533 :: p.1, p.2))
          else if 56320 ≤ n ∧ n < 57344 then
            (parseStrBodyF fuel rest2).map (fun p =>
              (Char.ofNat 65533 :: p.1, p.2))
          else
            (parseStrBodyF fuel rest2).map (fun p =>
              (Char.ofNat n :: p.1, p.2))
        | _, _, _, _ => none
      | e :: rest2 =>
        match escCharOf e with
        | some c2 => (parseStrBodyF fuel rest2).map (fun p => (c2 :: p.1, p.2))
        | none => none
      | [] => none
    else if c.toNat < 32 then none
    else (parseStrBodyF fuel rest).map (fun p => (c :: p.1, p.2))

/-- Body of a JSON string literal, after the opening quote: decoded
characters and the rest after the closing quote.  Each decoding step
consumes at least one character, so fuel length+1 always suffices. -/
def parseStrBody (cs : List Char) : Option (List Char × List Char) :=
  parseStrBodyF (cs.length + 1) cs

def numChar (c : Char) : Bool :=
  c.isDigit || c = '-' || c = '+' || c = '.' || c = 'e' || c = 'E'

def gnInt : List Char → Option (List Char)
  | [] => none
  | c :: rest =>
    if c = '0' then some rest
    else if c.isDigit then some (rest.dropWhile Char.isDigit) else none

def gnFrac : List Char → Option (List Char)
  | '.' :: c :: rest =>
    if c.isDigit then some (rest.dropWhile Char.isDigit) else none
  | cs => some cs

def gnDigits1 : List Char → Option (List Char)
  | c :: rest => if c.isDigit then some (rest.dropWhile Char.isDigit) else none
  | [] => none

def gnExpSign : List Char → Option (List Char)
  | '+' :: rest => gnDigits1 rest
  | '-' :: rest => gnDigits1 rest
  | rest => gnDigits1 rest

def gnExp : List Char → Option (List Char)
  | 'e' :: rest => gnExpSign rest
  | 'E' :: rest => gnExpSign rest
  | cs => some cs

/-- The JSON number grammar (Go scanner): optional minus, integer part with
no leading zero, optional fraction, optional exponent. -/
def grammarNum (cs : List Char) : Bool :=
  let cs1 := if cs.head? = some '-' then cs.tail else cs
  match gnInt cs1 with
  | some r1 =>
    match gnFrac r1 with
    | some r2 =>
      match gnExp r2 with
      | some r3 => r3.isEmpty
      | none => false
    | none => false
  | none => false

/-- Value of a decimal digit string (all characters are digits). -/
def digsNat (cs : List Char) : Nat :=
  cs.foldl (fun a c => a * 10 + (c.toNat - 48)) 0

def expSigned : List Char → Int
  | '+' :: r => (digsNat r : Int)
  | '-' :: r => -(digsNat r : Int)
  | r => (digsNat r : Int)

def expVal : List Char → Int
  | 'e' :: r => expSigned r
  | 'E' :: r => expSigned r
  | _ => 0

def stripNeg : List Char → List Char
  | '-' :: r => r
  | r => r

/-- Mantissa and decimal exponent of an unsigned grammar-valid number
token: the token's value is M * 10 ^ e. -/
def numVal (cs : List Char) : Nat × Int :=
  let ip := cs.takeWhile Char.isDigit
  match cs.dropWhile Char.isDigit with
  | '.' :: r =>
    let fp := r.takeWhile Char.isDigit
    (digsNat (ip ++ fp),
      expVal (r.dropWhile Char.isDigit) - (fp.length : Int))
  | r => (digsNat ip, expVal r)

/-- Smallest decimal magnitude that strconv.ParseFloat(tok, 64) rounds to
infinity: the midpoint between the largest finite float64 and 2^1024 (the
tie goes to the even 2^1024). -/
def f64Lim : Nat := 2 ^ 1024 - 2 ^ 970

/-- Overflow of a decimal M * 10 ^ e against the float64 boundary.  The
two guards on the decimal point position only short-circuit astronomic
exponents and agree with the exact comparison. -/
def numOverflowME (M : Nat) (e : Int) : Bool :=
  if M = 0 then false
  else if (Nat.log 10 M : Int) + 1 + e > 310 then true
  else if (Nat.log 10 M : Int) + 1 + e < -330 then false
  else decide (M * 10 ^ e.toNat ≥ f64Lim * 10 ^ (-e).toNat)

/-- The range error of strconv.ParseFloat(tok, 64), the only conversion
failure json.Unmarshal can hit on a scanner-valid number: overflow of the
magnitude (underflow quietly returns zero). -/
def numOverflow (tok : String) : Bool :=
  numOverflowME (numVal (stripNeg tok.data)).1
    (numVal (stripNeg tok.data)).2

mutual
def parseV : Nat → List Char → Option (Json × List Char)
  | 0, _ => none
  | fuel + 1, cs =>
    match skipWs cs with
    | [] => none
    | c :: rest =>
      if c = 'n' then
        match rest with
        | 'u' :: 'l' :: 'l' :: rest2 => some (.null, rest2)
        | _ => none
      else if c = 't' then
        match rest with
        | 'r' :: 'u' :: 'e' :: rest2 => some (.bool true, rest2)
        | _ => none
      else if c = 'f' then
        match rest with
        | 'a' :: 'l' :: 's' :: 'e' :: rest2 => some (.bool false, rest2)
        | _ => none
      else if c = '"' then
        (parseStrBody rest).map (fun p => (Json.str (String.mk p.1), p.2))
      else if c = '[' then
        if (skipWs rest).head? = some ']' then
          some (.arr [], (skipWs rest).tail)
        else
          (parseElems fuel (skipWs rest)).map
            (fun p => (Json.arr p.1, p.2))
      else if c = '{' then
        if (skipWs rest).head? = some '}' then
          some (.obj [], (skipWs rest).tail)
        else
          (parseMembers fuel (skipWs rest)).map
            (fun p => (Json.obj p.1, p.2))
      else if numChar c then
        if grammarNum ((c :: rest).takeWhile numChar) then
          some (.num (String.mk ((c :: rest).takeWhile numChar)),
            (c :: rest).dropWhile numChar)
        else none
      else none

def parseElems : Nat → List Char → Option (List Json × List Char)
  | 0, _ => none
  | fuel + 1, cs =>
    match parseV fuel cs with
    | some (v, r) =>
      match skipWs r with
      | ',' :: r2 => (parseElems fuel r2).map (fun p => (v :: p.1, p.2))
      | ']' :: r2 => some ([v], r2)
      | _ => none
    | none => none

def parseMembers :
    Nat → List Char → Option (List (String × Json) × List Char)
  | 0, _ => none
  | fuel + 1, cs =>
    match skipWs cs with
    | '"' :: rest =>
      match parseStrBody rest with
      | some (k, r) =>
        match skipWs r with
        | ':' :: r2 =>
          match parseV fuel r2 with
          | some (v, r3) =>
            match skipWs r3 with
            | ',' :: r4 =>
              (parseMembers fuel r4).map
                (fun p => ((String.mk k, v) :: p.1, p.2))
            | '}' :: r4 => some ([(String.mk k, v)], r4)
            | _ => none
          | none => none
        | _ => none
      | none => none
    | _ => none
end

/-- json.Unmarshal-style top-level parse: a single value, possibly
surrounded by whitespace, with nothing trailing.  The fuel bound exceeds the
depth any input of this length can reach. -/
def parseJson (s : String) : Option Json :=
  match parseV (2 * s.length + 2) s.data with
  | some (v, rest) => if (skipWs rest).isEmpty then some v else none
  | none => none

mutual
/-- Container nesting depth; Go's scanner caps it at 10000 levels. -/
def depthJ : Json → Nat
  | .arr xs => 1 + depthL xs
  | .obj kvs => 1 + depthKV kvs
  | _ => 0

def depthL : List Json → Nat
  | [] => 0
  | x :: xs => max (depthJ x) (depthL xs)

def depthKV : List (String × Json) → Nat
  | [] => 0
  | (_, x) :: kvs => max (depthJ x) (depthKV kvs)
end

mutual
/-- Every number literal of the value converts to a finite float64. -/
def okNumsJ : Json → Bool
  | .num tok => !numOverflow tok
  | .arr xs => okNumsL xs
  | .obj kvs => okNumsKV kvs
  | _ => true

def okNumsL : List Json → Bool
  | [] => true
  | x :: xs => okNumsJ x && okNumsL xs

def okNumsKV : List (String × Json) → Bool
  | [] => true
  | (_, x) :: kvs => okNumsJ x && okNumsKV kvs
end

/-- The checks json.Unmarshal runs beyond the grammar: the scanner's
10000-level nesting cap and the float64 conversion of every number
literal. -/
def goAccept (v : Json) : Bool :=
  decide (depthJ v ≤ 10000) && okNumsJ v

/-- json.Unmarshal of a document into an interface/map target: the
grammar (parseJson) plus the nesting cap and the number conversions. -/
def unmarshalJson (s : String) : Option Json :=
  match parseJson s with
  | some v => if goAccept v then some v else none
  | none => none

def hexDig (d : Nat) : Char :=
  if d < 10 then Char.ofNat (48 + d) else Char.ofNat (97 + d - 10)

def hexDig4 (n : Nat) : List Char :=
  [hexDig (n / 4096 % 16), hexDig (n / 256 % 16), hexDig (n / 16 % 16),
    hexDig (n % 16)]

/-- Go json.Marshal string escaping (HTML escaping on, as in the default
encoder used by the source): quote, backslash, the newline/return/tab
controls by name, all other controls and the three HTML characters as
lowercase \u00xx, and the two line separators as \u202x. -/
def escC (c : Char) : List Char :=
  if c = '"' then ['\\', '"']
  else if c = '\\' then ['\\', '\\']
  else if c = '\n' then ['\\', 'n']
  else if c = '\r' then ['\\', 'r']
  else if c = '\t' then ['\\', 't']
  else if c.toNat < 32 || c = '<' || c = '>' || c = '&' then
    '\\' :: 'u' :: hexDig4 c.toNat
  else if c.toNat = 8232 || c.toNat = 8233 then
    '\\' :: 'u' :: hexDig4 c.toNat
  else [c]

def escL (l : List Char) : List Char :=
  (l.map escC).flatten

def escStr (s : String) : List Char :=
  escL s.data

mutual
def marshalV : Json → List Char
  | .null => "null".data
  | .bool true => "true".data
  | .bool false => "false".data
  | .num tok => tok.data
  | .str s => '"' :: (escStr s ++ ['"'])
  | .arr xs => '[' :: (marshalL xs ++ [']'])
  | .obj kvs => '{' :: (marshalKVs kvs ++ ['}'])

def marshalL : List Json → List Char
  | [] => []
  | [x] => marshalV x
  | x :: xs => marshalV x ++ ',' :: marshalL xs

def marshalKVs : List (String × Json) → List Char
  | [] => []
  | [(k, v)] => '"' :: (escStr k ++ '"' :: ':' :: marshalV v)
  | (k, v) :: kvs =>
    ('"' :: (escStr k ++ '"' :: ':' :: marshalV v)) ++ ',' :: marshalKVs kvs
end

/-- json.Marshal of a decoded value (compact, object keys sorted). -/
def marshalStr (v : Json) : String :=
  String.mk (marshalV v)

/-- Insert into a key-sorted association list, keeping an existing entry on
key equality.  Folded from the right this realizes the later-occurrence-wins
semantics of json.Unmarshal into a Go map, with the sorted iteration order
of json.Marshal. -/
def insertKeep (k : String) (v : Json) :
    List (String × Json) → List (String × Json)
  | [] => [(k, v)]
  | (k2, y) :: t =>
    if k < k2 then (k, v) :: (k2, y) :: t
    else if k = k2 then (k2, y) :: t
    else (k2, y) :: insertKeep k v t

def toSorted (kvs : List (String × Json)) : List (String × Json) :=
  kvs.foldr (fun p m => insertKeep p.1 p.2 m) []

mutual
/-- The decode-reencode normalization performed by unmarshalling into
map[string]interface x and marshalling back: every object becomes
key-sorted with later duplicates winning; arrays normJ pointwise. -/
def normJ : Json → Json
  | .obj kvs => .obj (toSorted (normKVs kvs))
  | .arr xs => .arr (normL xs)
  | v => v

def normL : List Json → List Json
  | [] => []
  | x :: xs => normJ x :: normL xs

def normKVs : List (String × Json) → List (String × Json)
  | [] => []
  | (k, x) :: kvs => (k, normJ x) :: normKVs kvs
end

/-- The error NewDocument returns (named ErrUnparsableJSON in the source,
ErrUnparsableBody in the spec). -/
inductive DocErr where
  | errUnparsableJSON
deriving DecidableEq, Repr

/-- NewDocument (src/pkg/collection/document.go): unmarshal the body into a
map (errors on malformed JSON, on the decoder's rejections — nesting cap,
number overflow — and on any top level other than an object or null, null
yielding the nil map), then re-marshal the map as the stored Body.  The
fresh uuid and the posting time are parameters. -/
def newDocument (collectionName schemaName : String) (body : String)
    (id : List Nat) (postedAt : Int) : Except DocErr Document :=
  match unmarshalJson body with
  | none => .error .errUnparsableJSON
  | some v =>
    match normJ v with
    | .obj kvs =>
      .ok ⟨id, postedAt, collectionName, schemaName,
        String.mk (marshalV (.obj kvs))⟩
    | .null => .ok ⟨id, postedAt, collectionName, schemaName, "null"⟩
    | _ => .error .errUnparsableJSON

/-! ## Auxiliary predicates over JSON values -/

/-- Token well-formedness: every number literal in the value satisfies the
number grammar (true of every parser output). -/
def wfNum (tok : String) : Bool :=
  !tok.data.isEmpty && tok.data.all numChar && grammarNum tok.data

mutual
def wfJ : Json → Bool
  | .num tok => wfNum tok
  | .arr xs => wfL xs
  | .obj kvs => wfKVs kvs
  | _ => true

def wfL : List Json → Bool
  | [] => true
  | x :: xs => wfJ x && wfL xs

def wfKVs : List (String × Json) → Bool
  | [] => true
  | (_, x) :: kvs => wfJ x && wfKVs kvs
end

/-- Strictly ascending keys. -/
def ltKeys : List (String × Json) → Bool
  | [] => true
  | [_] => true
  | (k1, _) :: (k2, y) :: t => decide (k1 < k2) && ltKeys ((k2, y) :: t)

/-- Every key of the list is strictly above `a` (vacuous on nil, and on a
sorted list equivalent to a bound on the head). -/
def lbKeys (a : String) : List (String × Json) → Bool
  | [] => true
  | (k, _) :: _ => decide (a < k)

mutual
/-- Fuel sufficient for parseV to reconstruct a value. -/
def needF : Json → Nat
  | .arr xs => 1 + needL xs
  | .obj kvs => 1 + needKV kvs
  | _ => 1

def needL : List Json → Nat
  | [] => 0
  | x :: xs => 1 + max (needF x) (needL xs)

def needKV : List (String × Json) → Nat
  | [] => 0
  | (_, v) :: kvs => 1 + max (needF v) (needKV kvs)
end

def objKeys : Json → List String
  | .obj kvs => kvs.map Prod.fst
  | _ => []

/-- The top-level shapes json.Unmarshal accepts into a map target: an
object, or null (nil map). -/
def isObjOrNull : Json → Bool
  | .obj _ => true
  | .null => true
  | _ => false

/-- Number tokens the Go decode-reencode keeps verbatim: an integer
literal whose magnitude is at most 2^53 decodes to an exactly-represented
float64 that json.Marshal renders back as the same digit string. -/
def intTok (tok : String) : Bool :=
  (stripNeg tok.data).all Char.isDigit &&
    decide (digsNat (stripNeg tok.data) ≤ 2 ^ 53)

mutual
/-- Every number literal of the value is kept verbatim by the Go
decode-reencode (the fragment on which the token-level number model is
faithful to float64 decoding plus shortest re-rendering). -/
def safeJ : Json → Bool
  | .num tok => intTok tok
  | .arr xs => safeL xs
  | .obj kvs => safeKVs kvs
  | _ => true

def safeL : List Json → Bool
  | [] => true
  | x :: xs => safeJ x && safeL xs

def safeKVs : List (String × Json) → Bool
  | [] => true
  | (_, x) :: kvs => safeJ x && safeKVs kvs
end

mutual
/-- Canonical (normalized) form: every object is key-sorted with
strictly ascending keys and canonical values. -/
def canonJ : Json → Bool
  | .obj kvs => ltKeys kvs && canonKVs kvs
  | .arr xs => canonL xs
  | _ => true

def canonL : List Json → Bool
  | [] => true
  | x :: xs => canonJ x && canonL xs

def canonKVs : List (String × Json) → Bool
  | [] => true
  | (_, x) :: kvs => canonJ x && canonKVs kvs
end

/-! ## Pipe iteration accessors (src/engine/redis.pipe.iteration.go) -/

/-- getRedisIteration: HGET pipeKey iteration, parsed with strconv.Atoi
(decimal integer). -/
def getRedisIteration (st : Store) (pipeKey : String) : Option Int :=
  (st.hget pipeKey "iteration").bind parseTimeStr

/-- setRedisIteration: HSET pipeKey iteration i. -/
def setRedisIteration (st : Store) (pipeKey : String) (iter : Int) : Store :=
  st.hset pipeKey "iteration" (fmtTime iter)

/-! # Theorems -/

/-! ## Association-list and store lemmas -/

theorem lookup_filterne {α : Type} (m : List (String × α)) (k k' : String)
    (h : k' ≠ k) :
    (m.filter (fun p => p.1 != k)).lookup k' = m.lookup k' := by
  induction m with
  | nil => rfl
  | cons a t ih =>
    by_cases ha : a.1 = k
    · have hd : (a.1 != k) = false := by simp [ha]
      have hb : (k' == a.1) = false := by
        simp only [beq_eq_false_iff_ne]
        exact fun he => h (he.trans ha)
      simp only [List.filter, hd, ih]
      simp [List.lookup, hb]
    · have hd : (a.1 != k) = true := by simp [ha]
      simp only [List.filter, hd]
      by_cases he : k' = a.1
      · simp [List.lookup, he]
      · have hb : (k' == a.1) = false := by simp [he]
        simp [List.lookup, hb, ih]

theorem lookup_setA_self {α : Type} (k : String) (v : α)
    (m : List (String × α)) : (setA k v m).lookup k = some v := by
  simp [setA, List.lookup]

theorem lookup_setA_ne {α : Type} {k k' : String} (v : α)
    (m : List (String × α)) (h : k' ≠ k) :
    (setA k v m).lookup k' = m.lookup k' := by
  have hb : (k' == k) = false := by simp [h]
  simp [setA, List.lookup, hb, lookup_filterne m k k' h]

theorem getStr_setStr_self (st : Store) (k v : String) :
    (st.setStr k v).getStr k = some v := by
  simp [Store.setStr, Store.getStr, lookup_setA_self]

theorem getStr_setStr_ne (st : Store) (k v k' : String) (h : k' ≠ k) :
    (st.setStr k v).getStr k' = st.getStr k' := by
  simp [Store.setStr, Store.getStr, lookup_setA_ne _ _ h]

theorem setStr_lists (st : Store) (k v : String) :
    (st.setStr k v).lists = st.lists := rfl

theorem setStr_hashes (st : Store) (k v : String) :
    (st.setStr k v).hashes = st.hashes := rfl

theorem getList_setList_self (st : Store) (k : String) (l : List String) :
    (st.setList k l).getList k = l := by
  simp [Store.setList, Store.getList, lookup_setA_self]

theorem getList_setList_ne (st : Store) (k k' : String) (l : List String)
    (h : k' ≠ k) : (st.setList k l).getList k' = st.getList k' := by
  simp [Store.setList, Store.getList, lookup_setA_ne _ _ h]

theorem setList_strs (st : Store) (k : String) (l : List String) :
    (st.setList k l).strs = st.strs := rfl

theorem setList_hashes (st : Store) (k : String) (l : List String) :
    (st.setList k l).hashes = st.hashes := rfl

theorem rpush_eq_setList (st : Store) (k v : String) :
    st.rpush k v = st.setList k (st.getList k ++ [v]) := rfl

theorem hget_hset_self (st : Store) (k f v f' : String) :
    (st.hset k f v).hget k f' = if f' = f then some v else st.hget k f' := by
  by_cases h : f' = f
  · simp [Store.hset, Store.hget, lookup_setA_self, h]
  · simp only [Store.hset, Store.hget, lookup_setA_self, Option.some_bind,
      if_neg h]
    rw [lookup_setA_ne _ _ h]
    cases hk : st.hashes.lookup k <;> simp [List.lookup]

theorem hget_hset_ne (st : Store) {k k' : String} (f v f' : String)
    (h : k' ≠ k) : (st.hset k f v).hget k' f' = st.hget k' f' := by
  simp [Store.hset, Store.hget, lookup_setA_ne _ _ h]

theorem hset_strs (st : Store) (k f v : String) :
    (st.hset k f v).strs = st.strs := rfl

theorem hset_lists (st : Store) (k f v : String) :
    (st.hset k f v).lists = st.lists := rfl

theorem strne_of_length {s t : String} (h : s.length ≠ t.length) : s ≠ t :=
  fun he => h (he ▸ rfl)

/-! ## Time codec round trip -/

theorem natDigsRevF_fuel (n : Nat) :
    ∀ f1 f2, n ≤ f1 → n ≤ f2 → natDigsRevF f1 n = natDigsRevF f2 n := by
  induction n using Nat.strong_induction_on with
  | _ n ih =>
    intro f1 f2 h1 h2
    by_cases hn : n < 10
    · cases f1 <;> cases f2 <;>
        simp_all [natDigsRevF, Nat.mod_eq_of_lt hn]
    · match f1, f2 with
      | k1 + 1, k2 + 1 =>
        simp only [natDigsRevF, if_neg hn]
        have hd : n / 10 < n := Nat.div_lt_self (by omega) (by omega)
        rw [ih (n / 10) hd k1 k2 (by omega) (by omega)]
      | 0, _ => omega
      | _ + 1, 0 => omega

theorem natDigsRev_eq (n : Nat) :
    natDigsRev n = if n < 10 then [n] else (n % 10) :: natDigsRev (n / 10) := by
  by_cases hn : n < 10
  · rw [if_pos hn, natDigsRev]
    cases n <;> simp_all [natDigsRevF, Nat.mod_eq_of_lt hn]
  · rw [if_neg hn, natDigsRev, natDigsRev]
    match hm : n with
    | m + 1 =>
      simp only [natDigsRevF, if_neg hn]
      have hd : (m + 1) / 10 ≤ m := by omega
      rw [natDigsRevF_fuel ((m + 1) / 10) m ((m + 1) / 10) hd (le_refl _)]
    | 0 => omega

theorem charToNat_ofNat {n : Nat} (h : n < 55296) :
    (Char.ofNat n).toNat = n := by
  have hv : n.isValidChar := Or.inl h
  rw [Char.ofNat, dif_pos hv]
  rfl

theorem natDigsRev_lt (n : Nat) : ∀ d ∈ natDigsRev n, d < 10 := by
  induction n using Nat.strong_induction_on with
  | _ n ih =>
    rw [natDigsRev_eq]
    split
    · next h => intro d hd; simp at hd; omega
    · next h =>
      intro d hd
      rcases List.mem_cons.mp hd with he | hm
      · omega
      · exact ih (n / 10) (Nat.div_lt_self (by omega) (by omega)) d hm

theorem natDigsRev_ne_nil (n : Nat) : natDigsRev n ≠ [] := by
  rw [natDigsRev_eq]; split <;> simp

theorem foldl_digs (n : Nat) :
    ∀ acc : Nat,
      ((natDigsRev n).reverse).foldl (fun a d => a * 10 + d) acc =
        acc * 10 ^ (natDigsRev n).length + n := by
  induction n using Nat.strong_induction_on with
  | _ n ih =>
    intro acc
    rw [natDigsRev_eq]
    split
    · next h => simp [List.foldl]
    · next h =>
      rw [List.reverse_cons, List.foldl_append,
        ih (n / 10) (Nat.div_lt_self (by omega) (by omega)) acc]
      have h2 : n / 10 * 10 + n % 10 = n := by omega
      simp only [List.foldl, List.length_cons, pow_succ]
      calc (acc * 10 ^ (natDigsRev (n / 10)).length + n / 10) * 10 + n % 10
          = acc * (10 ^ (natDigsRev (n / 10)).length * 10) +
            (n / 10 * 10 + n % 10) := by ring
        _ = acc * (10 ^ (natDigsRev (n / 10)).length * 10) + n := by rw [h2]

theorem digVal_digChar {d : Nat} (hd : d < 10) :
    digVal (digChar d) = some d := by
  have ht : (digChar d).toNat = 48 + d := charToNat_ofNat (by omega)
  rw [digVal, ht, if_pos ⟨by omega, by omega⟩]
  congr 1
  omega

theorem digsVal_map (ds : List Nat) :
    ∀ acc, (∀ d ∈ ds, d < 10) →
      digsVal acc (ds.map digChar) =
        some (ds.foldl (fun a d => a * 10 + d) acc) := by
  induction ds with
  | nil => intro acc _; rfl
  | cons d t ih =>
    intro acc hall
    have hd : d < 10 := hall d (by simp)
    simp only [List.map, digsVal, digVal_digChar hd, List.foldl]
    exact ih (acc * 10 + d) (fun x hx => hall x (by simp [hx]))

theorem natToStr_ne_nil (n : Nat) : natToStr n ≠ [] := by
  simp only [natToStr, ne_eq, List.map_eq_nil_iff, List.reverse_eq_nil_iff]
  exact natDigsRev_ne_nil n

theorem parseDigs_cons (c : Char) (cs : List Char) :
    parseDigs (c :: cs) = digsVal 0 (c :: cs) := rfl

theorem parseDigs_natToStr (n : Nat) : parseDigs (natToStr n) = some n := by
  obtain ⟨c, cs, hc⟩ : ∃ c cs, natToStr n = c :: cs := by
    cases h : natToStr n with
    | nil => exact absurd h (natToStr_ne_nil n)
    | cons c cs => exact ⟨c, cs, rfl⟩
  rw [hc, parseDigs_cons, ← hc, natToStr,
    digsVal_map _ 0 (fun d hd => natDigsRev_lt n d (List.mem_reverse.mp hd)),
    foldl_digs n 0]
  simp

theorem natToStr_head_digit (n : Nat) :
    ∃ c cs, natToStr n = c :: cs ∧ 48 ≤ c.toNat ∧ c.toNat ≤ 57 := by
  obtain ⟨d, ds, hd⟩ : ∃ d ds, (natDigsRev n).reverse = d :: ds := by
    cases h : (natDigsRev n).reverse with
    | nil =>
      exact absurd (List.reverse_eq_nil_iff.mp h) (natDigsRev_ne_nil n)
    | cons d ds => exact ⟨d, ds, rfl⟩
  have hdlt : d < 10 :=
    natDigsRev_lt n d (List.mem_reverse.mp (by simp [hd]))
  refine ⟨digChar d, ds.map digChar, ?_, ?_, ?_⟩
  · rw [natToStr, hd, List.map]
  · rw [digChar, charToNat_ofNat (by omega)]; omega
  · rw [digChar, charToNat_ofNat (by omega)]; omega

theorem parseTimeStr_fmtTime (t : Int) :
    parseTimeStr (fmtTime t) = some t := by
  obtain ⟨c, cs, hc, h48, h57⟩ := natToStr_head_digit t.natAbs
  have hcne : c ≠ '-' := by
    intro he
    have h45 : c.toNat = 45 := by rw [he]; rfl
    omega
  by_cases ht : t < 0
  · rw [fmtTime, if_pos ht]
    show (parseDigs (natToStr t.natAbs)).map (fun n => -(n : Int)) = some t
    rw [parseDigs_natToStr]
    show some (-(t.natAbs : Int)) = some t
    congr 1
    omega
  · rw [fmtTime, if_neg ht]
    show parseTimeStr (String.mk (natToStr t.natAbs)) = some t
    rw [parseTimeStr, hc]
    show (if c = '-' then (parseDigs cs).map (fun n => -(n : Int))
      else (parseDigs (c :: cs)).map (fun n => (n : Int))) = some t
    rw [if_neg hcne, ← hc, parseDigs_natToStr]
    show some ((t.natAbs : Int)) = some t
    congr 1
    omega

theorem fmtTime_ne_empty (t : Int) : fmtTime t ≠ "" := by
  rw [fmtTime]
  split
  · intro h
    have := congrArg String.data h
    simp at this
  · intro h
    have := congrArg String.data h
    simp at this
    exact natToStr_ne_nil t.natAbs this

/-! ## Flush path lemmas and claims C2, C5, C6, C7 -/

/-- Claim C6: when at least FlushPeriod has elapsed since the stored
flushedAt and the buffer list is empty, Flush only sets flushedAt to now,
creates no pipe (hashes unchanged), leaves every list unchanged (the buffer
stays empty) and returns no error. -/
theorem flush_empty_buffer_updates_flushedAt
    (b : redisBuffer) (st : Store) (now t : Int) (u1 u2 s : String)
    (hs : st.getStr b.timeKey = some s) (hne : s ≠ "")
    (hp : parseTimeStr s = some t)
    (helap : b.collection.FlushPeriod ≤ now - t)
    (hempty : st.getList b.bufferKey = []) :
    flush b now u1 u2 [] st =
      (.ok (), st.setStr b.timeKey (fmtTime now), now) ∧
    (st.setStr b.timeKey (fmtTime now)).getStr b.timeKey =
      some (fmtTime now) ∧
    (st.setStr b.timeKey (fmtTime now)).lists = st.lists ∧
    (st.setStr b.timeKey (fmtTime now)).hashes = st.hashes := by
  refine ⟨?_, getStr_setStr_self _ _ _, rfl, rfl⟩
  have hlt : ¬ (now - t < b.collection.FlushPeriod) := by omega
  simp only [flush, List.headD, Bool.false_eq_true, if_false, flushTx, hs,
    hp, if_neg hne, if_neg hlt, Store.llen, hempty, List.length_nil,
    if_pos rfl]
  simp

/-- Claim C7: a Flush under the period is a pure no-op on the store with no
error; in particular after any flush that stored flushedAt = t1, a second
flush less than FlushPeriod later changes nothing. -/
theorem flush_under_period_noop_and_cadence
    (b : redisBuffer) (st : Store) (now t : Int) (u1 u2 s : String) :
    (st.getStr b.timeKey = some s → s ≠ "" → parseTimeStr s = some t →
      now - t < b.collection.FlushPeriod →
      flush b now u1 u2 [] st = (.ok (), st, t)) ∧
    (∀ t1 now2, st.getStr b.timeKey = some (fmtTime t1) →
      now2 - t1 < b.collection.FlushPeriod →
      flush b now2 u1 u2 [] st = (.ok (), st, t1)) := by
  constructor
  · intro hs hne hp hlt
    simp only [flush, List.headD, Bool.false_eq_true, if_false, flushTx, hs,
      hp, if_neg hne, if_pos hlt]
  · intro t1 now2 hs hlt
    simp only [flush, List.headD, Bool.false_eq_true, if_false, flushTx, hs,
      parseTimeStr_fmtTime, if_neg (fmtTime_ne_empty t1), if_pos hlt]

/-- Claim C5: with the time key absent Flush surfaces the GET error and
returns the store unchanged, and the RedisBuffer constructor writes nothing
to the store, only initializing the in-memory flushedAt. -/
theorem flush_absent_timeKey_error_and_ctor_writes_nothing :
    (∀ (b : redisBuffer) (st : Store) (now : Int) (u1 u2 : String),
      st.getStr b.timeKey = none →
      flush b now u1 u2 [] st =
        (.error "WATCH.(GET collection.flushedAt).redis: nil", st,
          b.flushedAt)) ∧
    (∀ (collec : Collection) (cons : List String) (now : Int) (st0 : Store),
      (RedisBuffer collec cons now st0).2 = st0 ∧
      (RedisBuffer collec cons now st0).1.flushedAt = now) := by
  constructor
  · intro b st now u1 u2 hs
    simp only [flush, List.headD, Bool.false_eq_true, if_false, flushTx, hs]
    rfl
  · intro collec cons now st0
    exact ⟨rfl, rfl⟩

/-- Witness for flush_absent_timeKey_error_and_ctor_writes_nothing. -/
theorem flush_absent_timeKey_witness :
    Store.getStr ⟨[], [], []⟩ "T" = none ∧
    flush ⟨⟨"c", 1, 10⟩, ["k"], "B", "T", "P", 0⟩ 1 "u1" "u2" []
        ⟨[], [], []⟩ =
      (.error "WATCH.(GET collection.flushedAt).redis: nil",
        ⟨[], [], []⟩, 0) :=
  ⟨rfl,
    flush_absent_timeKey_error_and_ctor_writes_nothing.1
      ⟨⟨"c", 1, 10⟩, ["k"], "B", "T", "P", 0⟩ ⟨[], [], []⟩ 1 "u1" "u2" rfl⟩

/-- Claim C2 (amended): Flush makes a single transaction attempt; a conflict
is surfaced immediately as the WATCH-wrapped transaction-failure error, with
the store unchanged and no internal retry. -/
theorem flush_surfaces_conflict_without_retry
    (b : redisBuffer) (st : Store) (now : Int) (u1 u2 : String)
    (rest : List Bool) :
    flush b now u1 u2 (true :: rest) st =
      (.error "WATCH.redis: transaction failed", st, b.flushedAt) := by
  simp [flush, List.headD]

/-- Counterexample to claim C2 as stated: a single transient conflict
followed by a clean store is surfaced by the source Flush as an error, while
the spec behavior (retry the whole transaction up to MaxTxRetries = 8 times)
succeeds on the same script and state. -/
theorem flush_conflict_no_retry_cex :
    flush ⟨⟨"c", 1, 10⟩, ["k"], "B", "T", "P", 0⟩ 1 "u1" "u2" [true, false]
        ⟨[("T", "0")], [], []⟩ =
      (.error "WATCH.redis: transaction failed", ⟨[("T", "0")], [], []⟩,
        0) ∧
    flushRetrySpec ⟨⟨"c", 1, 10⟩, ["k"], "B", "T", "P", 0⟩ 1 "u1" "u2"
        MaxTxRetries [true, false] ⟨[("T", "0")], [], []⟩ =
      (.ok (), ⟨[("T", fmtTime 1)], [], []⟩, 1) := by
  constructor
  · rfl
  · rfl

/-! ## Pipe-sealing lemmas and claim C4 -/

theorem newPipe_hget_iteration (st : Store) (pk : String) (fp rp now : Int) :
    (newRedisPipe st pk fp rp now).hget pk "iteration" = some "0" := by
  simp [newRedisPipe, hget_hset_self]

theorem newPipe_strs (st : Store) (pk : String) (fp rp now : Int) :
    (newRedisPipe st pk fp rp now).strs = st.strs := rfl

theorem newPipe_lists (st : Store) (pk : String) (fp rp now : Int) :
    (newRedisPipe st pk fp rp now).lists = st.lists := rfl

theorem addCons_hget_mem_aux (l : List String) (st : Store) (pk : String)
    (now fp : Int) (c : String) :
    (addRedisPipeConsumers st pk l now fp).hget (pk ++ ".consumers") c =
      if c ∈ l then some (consumerEntry false (now + fp))
      else st.hget (pk ++ ".consumers") c := by
  induction l generalizing st with
  | nil => simp [addRedisPipeConsumers]
  | cons a t ih =>
    simp only [addRedisPipeConsumers, List.foldl_cons] at *
    rw [ih]
    by_cases hm : c ∈ t
    · simp [hm]
    · rw [if_neg hm, hget_hset_self]
      by_cases he : c = a
      · simp [he]
      · simp [List.mem_cons, he, hm]

theorem addCons_hget_ne_key (l : List String) (st : Store) (pk : String)
    (now fp : Int) (k' f' : String) (h : k' ≠ pk ++ ".consumers") :
    (addRedisPipeConsumers st pk l now fp).hget k' f' = st.hget k' f' := by
  induction l generalizing st with
  | nil => rfl
  | cons a t ih =>
    simp only [addRedisPipeConsumers, List.foldl_cons] at *
    rw [ih, hget_hset_ne _ _ _ _ h]

theorem addCons_strs (l : List String) (st : Store) (pk : String)
    (now fp : Int) :
    (addRedisPipeConsumers st pk l now fp).strs = st.strs := by
  induction l generalizing st with
  | nil => rfl
  | cons a t ih =>
    simp only [addRedisPipeConsumers, List.foldl_cons] at *
    rw [ih]
    rfl

theorem addCons_lists (l : List String) (st : Store) (pk : String)
    (now fp : Int) :
    (addRedisPipeConsumers st pk l now fp).lists = st.lists := by
  induction l generalizing st with
  | nil => rfl
  | cons a t ih =>
    simp only [addRedisPipeConsumers, List.foldl_cons] at *
    rw [ih]
    rfl

theorem fb2p_getList_buffer (st : Store) (bk pk : String) :
    (flushBuffer2RedisPipe st bk pk).getList bk = [] :=
  getList_setList_self _ _ _

theorem fb2p_getList_pipe (st : Store) (bk pk : String)
    (h : pk ++ ".buffer" ≠ bk) :
    (flushBuffer2RedisPipe st bk pk).getList (pk ++ ".buffer") =
      st.getList (pk ++ ".buffer") ++ st.getList bk := by
  simp [flushBuffer2RedisPipe, getList_setList_ne _ _ _ _ h,
    getList_setList_self]

theorem fb2p_strs (st : Store) (bk pk : String) :
    (flushBuffer2RedisPipe st bk pk).strs = st.strs := rfl

theorem fb2p_hashes (st : Store) (bk pk : String) :
    (flushBuffer2RedisPipe st bk pk).hashes = st.hashes := rfl

theorem hget_of_hashes_eq {st st' : Store} (h : st'.hashes = st.hashes)
    (k f : String) : st'.hget k f = st.hget k f := by
  simp [Store.hget, h]

theorem getList_of_lists_eq {st st' : Store} (h : st'.lists = st.lists)
    (k : String) : st'.getList k = st.getList k := by
  simp [Store.getList, h]

/-- Claim C4: a flush with the period elapsed and a non-empty buffer commits
a transaction that creates the pipe metadata hash with iteration 0, one
consumers-hash entry per registered consumer carrying done=false and
nextAttemptAt = now + FlushPeriod, moves the buffered documents in order
into the pipe document list, clears the buffer list, and stores
flushedAt = now (also returned as the new in-memory flushedAt). -/
theorem flush_seals_buffer_into_pipe
    (collec : Collection) (cons : List String) (fa0 : Int) (st0 st : Store)
    (now t : Int) (u1 u2 s : String) (b : redisBuffer)
    (hb : b = (RedisBuffer collec cons fa0 st0).1)
    (hs : st.getStr b.timeKey = some s) (hne : s ≠ "")
    (hp : parseTimeStr s = some t)
    (helap : b.collection.FlushPeriod ≤ now - t)
    (hnonempty : st.getList b.bufferKey ≠ [])
    (hfresh : st.getList (b.pipeKeyPref ++ "." ++ u2 ++ ".buffer") = []) :
    (flush b now u1 u2 [] st).1 = .ok () ∧
    (flush b now u1 u2 [] st).2.2 = now ∧
    (flush b now u1 u2 [] st).2.1.getStr b.timeKey = some (fmtTime now) ∧
    (flush b now u1 u2 [] st).2.1.hget (b.pipeKeyPref ++ "." ++ u2)
      "iteration" = some "0" ∧
    (∀ c ∈ b.consumers,
      (flush b now u1 u2 [] st).2.1.hget
        (b.pipeKeyPref ++ "." ++ u2 ++ ".consumers") c =
        some (consumerEntry false (now + b.collection.FlushPeriod))) ∧
    (flush b now u1 u2 [] st).2.1.getList
      (b.pipeKeyPref ++ "." ++ u2 ++ ".buffer") = st.getList b.bufferKey ∧
    (flush b now u1 u2 [] st).2.1.getList b.bufferKey = [] := by
  have hbk : b.bufferKey = "bulklog." ++ collec.Name ++ ".buffer" := by
    rw [hb]; rfl
  have hpref : b.pipeKeyPref = "bulklog." ++ collec.Name ++ ".pipes" := by
    rw [hb]; rfl
  have hcons : b.consumers = cons := by rw [hb]; rfl
  have hpbk_bk : b.pipeKeyPref ++ "." ++ u2 ++ ".buffer" ≠ b.bufferKey := by
    apply strne_of_length
    rw [hbk, hpref]
    simp only [String.length_append]
    have h1 : ("bulklog." : String).length = 8 := rfl
    have h2 : (".pipes" : String).length = 6 := rfl
    have h3 : ("." : String).length = 1 := rfl
    have h4 : (".buffer" : String).length = 7 := rfl
    omega
  have hpk_ck : b.pipeKeyPref ++ "." ++ u2 ≠
      b.pipeKeyPref ++ "." ++ u2 ++ ".consumers" := by
    apply strne_of_length
    simp only [String.length_append]
    have h1 : (".consumers" : String).length = 10 := rfl
    omega
  have hlt : ¬ (now - t < b.collection.FlushPeriod) := by omega
  have hlen : ¬ (st.llen b.bufferKey = 0) := by
    simp only [Store.llen, List.length_eq_zero]
    exact hnonempty
  have hflush : flush b now u1 u2 [] st =
      (.ok (),
        (flushBuffer2RedisPipe
          (addRedisPipeConsumers
            (newRedisPipe st (b.pipeKeyPref ++ "." ++ u2)
              b.collection.FlushPeriod b.collection.RetentionPeriod now)
            (b.pipeKeyPref ++ "." ++ u2) b.consumers now
            b.collection.FlushPeriod)
          b.bufferKey (b.pipeKeyPref ++ "." ++ u2)).setStr
          b.timeKey (fmtTime now), now) := by
    simp only [flush, List.headD, Bool.false_eq_true, if_false, flushTx, hs,
      hp, if_neg hne, if_neg hlt, if_neg hlen]
  rw [hflush]
  refine ⟨rfl, rfl, getStr_setStr_self _ _ _, ?_, ?_, ?_, ?_⟩
  · rw [hget_of_hashes_eq (setStr_hashes _ _ _),
      hget_of_hashes_eq (fb2p_hashes _ _ _),
      addCons_hget_ne_key _ _ _ _ _ _ _ hpk_ck,
      newPipe_hget_iteration]
  · intro c hc
    rw [hget_of_hashes_eq (setStr_hashes _ _ _),
      hget_of_hashes_eq (fb2p_hashes _ _ _),
      addCons_hget_mem_aux, if_pos hc]
  · rw [getList_of_lists_eq (setStr_lists _ _ _),
      fb2p_getList_pipe _ _ _ hpbk_bk,
      getList_of_lists_eq (addCons_lists _ _ _ _ _),
      getList_of_lists_eq (addCons_lists _ _ _ _ _),
      getList_of_lists_eq (newPipe_lists _ _ _ _ _),
      getList_of_lists_eq (newPipe_lists _ _ _ _ _),
      hfresh]
    simp
  · rw [getList_of_lists_eq (setStr_lists _ _ _), fb2p_getList_buffer]

/-! ## Claim C8: Append -/

theorem appendAll_getList (b : redisBuffer) (docs : List Document) :
    ∀ st : Store,
      (appendAll b docs st).getList b.bufferKey =
        st.getList b.bufferKey ++ docs.map encodeDoc := by
  induction docs with
  | nil => intro st; simp [appendAll]
  | cons d ds ih =>
    intro st
    simp only [appendAll, List.foldl_cons, List.map_cons] at *
    rw [ih, append, rpush_eq_setList]
    show ((st.setList b.bufferKey (st.getList b.bufferKey ++ [encodeDoc d])
      ).getList b.bufferKey) ++ ds.map encodeDoc = _
    rw [getList_setList_self, List.append_assoc]
    rfl

/-- Claim C8: a successful Append pushes exactly one element, the base64
encoding of the document serialization, onto the tail of the buffer list;
no other list and no string or hash key changes; a failing RPUSH surfaces
the wrapped store error with the store unchanged; a sequence of successful
Appends extends the buffer list by the encodings in append order. -/
theorem append_rpush_single_element
    (b : redisBuffer) (st : Store) (d : Document) :
    append b d none st = (.ok (), st.rpush b.bufferKey (encodeDoc d)) ∧
    (st.rpush b.bufferKey (encodeDoc d)).getList b.bufferKey =
      st.getList b.bufferKey ++ [encodeDoc d] ∧
    (∀ k, k ≠ b.bufferKey →
      (st.rpush b.bufferKey (encodeDoc d)).getList k = st.getList k) ∧
    (st.rpush b.bufferKey (encodeDoc d)).strs = st.strs ∧
    (st.rpush b.bufferKey (encodeDoc d)).hashes = st.hashes ∧
    (∀ e, append b d (some e) st =
      (.error ("(RPUSH collection.buffer docBase64)." ++ e), st)) ∧
    (∀ docs, (appendAll b docs st).getList b.bufferKey =
      st.getList b.bufferKey ++ docs.map encodeDoc) := by
  refine ⟨rfl, ?_, ?_, rfl, rfl, fun e => rfl, fun docs =>
    appendAll_getList b docs st⟩
  · rw [rpush_eq_setList, getList_setList_self]
  · intro k hk
    rw [rpush_eq_setList, getList_setList_ne _ _ _ _ hk]

/-- Witness for append_rpush_single_element at a concrete buffer, store and
document; the named other key is left untouched. -/
theorem append_rpush_single_element_witness :
    ("X" : String) ≠ "B" ∧
    (append ⟨⟨"c", 1, 10⟩, ["k"], "B", "T", "P", 0⟩
        ⟨[1], 0, "c", "s", "x"⟩ none ⟨[], [("X", ["q"])], []⟩).2.getList
      "B" = [encodeDoc ⟨[1], 0, "c", "s", "x"⟩] ∧
    (append ⟨⟨"c", 1, 10⟩, ["k"], "B", "T", "P", 0⟩
        ⟨[1], 0, "c", "s", "x"⟩ none ⟨[], [("X", ["q"])], []⟩).2.getList
      "X" = ["q"] := by
  refine ⟨by decide, ?_, ?_⟩
  · have h := (append_rpush_single_element
      ⟨⟨"c", 1, 10⟩, ["k"], "B", "T", "P", 0⟩ ⟨[], [("X", ["q"])], []⟩
      ⟨[1], 0, "c", "s", "x"⟩).2.1
    rw [show (append ⟨⟨"c", 1, 10⟩, ["k"], "B", "T", "P", 0⟩
      ⟨[1], 0, "c", "s", "x"⟩ none ⟨[], [("X", ["q"])], []⟩).2 =
      Store.rpush ⟨[], [("X", ["q"])], []⟩ "B"
        (encodeDoc ⟨[1], 0, "c", "s", "x"⟩) from rfl, h]
    rfl
  · have h := ((append_rpush_single_element
      ⟨⟨"c", 1, 10⟩, ["k"], "B", "T", "P", 0⟩ ⟨[], [("X", ["q"])], []⟩
      ⟨[1], 0, "c", "s", "x"⟩).2.2.1) "X" (by decide)
    rw [show (append ⟨⟨"c", 1, 10⟩, ["k"], "B", "T", "P", 0⟩
      ⟨[1], 0, "c", "s", "x"⟩ none ⟨[], [("X", ["q"])], []⟩).2 =
      Store.rpush ⟨[], [("X", ["q"])], []⟩ "B"
        (encodeDoc ⟨[1], 0, "c", "s", "x"⟩) from rfl, h]
    rfl

/-! ## Claim C1: the watch set misses the created pipe keys (code bug) -/

/-- Claim C1 (code evaluated at the failing input): on a flush that commits
a new pipe, the pipe record is created under the keys derived from the uuid
generated inside the transaction body, while the watch set passed to WATCH
holds the keys derived from the uuid generated before the transaction; with
two distinct uuids none of the three created pipe keys is watched, so the
watch set does not contain the keys the transaction writes. -/
theorem flush_watched_pipe_keys_mismatch :
    (flush (RedisBuffer ⟨"c", 1, 10⟩ ["k"] 0 ⟨[], [], []⟩).1 1 "u1" "u2" []
        ⟨[("bulklog.c.flushedAt", fmtTime 0)],
          [("bulklog.c.buffer", ["d"])], []⟩).1 = .ok () ∧
    (flush (RedisBuffer ⟨"c", 1, 10⟩ ["k"] 0 ⟨[], [], []⟩).1 1 "u1" "u2" []
        ⟨[("bulklog.c.flushedAt", fmtTime 0)],
          [("bulklog.c.buffer", ["d"])], []⟩).2.1.hget "bulklog.c.pipes.u2"
      "iteration" = some "0" ∧
    (flush (RedisBuffer ⟨"c", 1, 10⟩ ["k"] 0 ⟨[], [], []⟩).1 1 "u1" "u2" []
        ⟨[("bulklog.c.flushedAt", fmtTime 0)],
          [("bulklog.c.buffer", ["d"])], []⟩).2.1.getList
      "bulklog.c.pipes.u2.buffer" = ["d"] ∧
    flushWatchKeys (RedisBuffer ⟨"c", 1, 10⟩ ["k"] 0 ⟨[], [], []⟩).1 "u1" =
      ["bulklog.c.buffer", "bulklog.c.flushedAt", "bulklog.c.pipes.u1",
        "bulklog.c.pipes.u1.consumers", "bulklog.c.pipes.u1.buffer"] ∧
    "bulklog.c.pipes.u2" ∉
      flushWatchKeys (RedisBuffer ⟨"c", 1, 10⟩ ["k"] 0 ⟨[], [], []⟩).1
        "u1" ∧
    "bulklog.c.pipes.u2.consumers" ∉
      flushWatchKeys (RedisBuffer ⟨"c", 1, 10⟩ ["k"] 0 ⟨[], [], []⟩).1
        "u1" ∧
    "bulklog.c.pipes.u2.buffer" ∉
      flushWatchKeys (RedisBuffer ⟨"c", 1, 10⟩ ["k"] 0 ⟨[], [], []⟩).1
        "u1" := by
  refine ⟨?_, ?_, ?_, by decide, by decide, by decide, by decide⟩
  · rfl
  · rfl
  · rfl

/-! ## Witnesses for the flush claims -/

/-- Witness for flush_empty_buffer_updates_flushedAt at a concrete buffer:
period 1, stored flushedAt 0, tick at 1, empty buffer. -/
theorem flush_empty_buffer_witness :
    Store.getStr ⟨[("T", fmtTime 0)], [], []⟩ "T" = some (fmtTime 0) ∧
    fmtTime 0 ≠ "" ∧
    parseTimeStr (fmtTime 0) = some 0 ∧
    (1 : Int) ≤ 1 - 0 ∧
    Store.getList ⟨[("T", fmtTime 0)], [], []⟩ "B" = [] ∧
    (flush ⟨⟨"c", 1, 10⟩, ["k"], "B", "T", "P", 0⟩ 1 "u1" "u2" []
        ⟨[("T", fmtTime 0)], [], []⟩ =
      (.ok (), Store.setStr ⟨[("T", fmtTime 0)], [], []⟩ "T" (fmtTime 1),
        1) ∧
    (Store.setStr ⟨[("T", fmtTime 0)], [], []⟩ "T" (fmtTime 1)).getStr "T" =
      some (fmtTime 1) ∧
    (Store.setStr ⟨[("T", fmtTime 0)], [], []⟩ "T" (fmtTime 1)).lists =
      (⟨[("T", fmtTime 0)], [], []⟩ : Store).lists ∧
    (Store.setStr ⟨[("T", fmtTime 0)], [], []⟩ "T" (fmtTime 1)).hashes =
      (⟨[("T", fmtTime 0)], [], []⟩ : Store).hashes) :=
  ⟨rfl, by decide, by decide, by decide, rfl,
    flush_empty_buffer_updates_flushedAt
      ⟨⟨"c", 1, 10⟩, ["k"], "B", "T", "P", 0⟩ ⟨[("T", fmtTime 0)], [], []⟩
      1 0 "u1" "u2" (fmtTime 0) rfl (by decide) (by decide) (by decide) rfl⟩

/-- Witness for flush_under_period_noop_and_cadence: stored flushedAt 0,
period 1, tick again at 0. -/
theorem flush_under_period_witness :
    Store.getStr ⟨[("T", fmtTime 0)], [], []⟩ "T" = some (fmtTime 0) ∧
    fmtTime 0 ≠ "" ∧
    parseTimeStr (fmtTime 0) = some 0 ∧
    (0 - 0 : Int) < 1 ∧
    flush ⟨⟨"c", 1, 10⟩, ["k"], "B", "T", "P", 5⟩ 0 "u1" "u2" []
        ⟨[("T", fmtTime 0)], [], []⟩ =
      (.ok (), ⟨[("T", fmtTime 0)], [], []⟩, 0) ∧
    flush ⟨⟨"c", 1, 10⟩, ["k"], "B", "T", "P", 5⟩ 0 "u3" "u4" []
        ⟨[("T", fmtTime 0)], [], []⟩ =
      (.ok (), ⟨[("T", fmtTime 0)], [], []⟩, 0) :=
  ⟨rfl, by decide, by decide, by decide,
    (flush_under_period_noop_and_cadence
      ⟨⟨"c", 1, 10⟩, ["k"], "B", "T", "P", 5⟩ ⟨[("T", fmtTime 0)], [], []⟩
      0 0 "u1" "u2" (fmtTime 0)).1 rfl (by decide) (by decide) (by decide),
    (flush_under_period_noop_and_cadence
      ⟨⟨"c", 1, 10⟩, ["k"], "B", "T", "P", 5⟩ ⟨[("T", fmtTime 0)], [], []⟩
      0 0 "u3" "u4" (fmtTime 0)).2 0 0 rfl (by decide)⟩

/-- Witness for flush_seals_buffer_into_pipe: one buffered document "d",
one consumer "k", period 1, stored flushedAt 0, tick at 1. -/
theorem flush_seals_buffer_witness :
    Store.getStr ⟨[("bulklog.c.flushedAt", fmtTime 0)],
        [("bulklog.c.buffer", ["d"])], []⟩ "bulklog.c.flushedAt" =
      some (fmtTime 0) ∧
    fmtTime 0 ≠ "" ∧
    parseTimeStr (fmtTime 0) = some 0 ∧
    (1 : Int) ≤ 1 - 0 ∧
    Store.getList ⟨[("bulklog.c.flushedAt", fmtTime 0)],
        [("bulklog.c.buffer", ["d"])], []⟩ "bulklog.c.buffer" ≠ [] ∧
    Store.getList ⟨[("bulklog.c.flushedAt", fmtTime 0)],
        [("bulklog.c.buffer", ["d"])], []⟩ "bulklog.c.pipes.u2.buffer" =
      [] ∧
    ((flush (RedisBuffer ⟨"c", 1, 10⟩ ["k"] 0 ⟨[], [], []⟩).1 1 "u1" "u2"
        [] ⟨[("bulklog.c.flushedAt", fmtTime 0)],
          [("bulklog.c.buffer", ["d"])], []⟩).1 = .ok () ∧
    (flush (RedisBuffer ⟨"c", 1, 10⟩ ["k"] 0 ⟨[], [], []⟩).1 1 "u1" "u2"
        [] ⟨[("bulklog.c.flushedAt", fmtTime 0)],
          [("bulklog.c.buffer", ["d"])], []⟩).2.2 = 1 ∧
    (flush (RedisBuffer ⟨"c", 1, 10⟩ ["k"] 0 ⟨[], [], []⟩).1 1 "u1" "u2"
        [] ⟨[("bulklog.c.flushedAt", fmtTime 0)],
          [("bulklog.c.buffer", ["d"])], []⟩).2.1.getStr
      "bulklog.c.flushedAt" = some (fmtTime 1) ∧
    (flush (RedisBuffer ⟨"c", 1, 10⟩ ["k"] 0 ⟨[], [], []⟩).1 1 "u1" "u2"
        [] ⟨[("bulklog.c.flushedAt", fmtTime 0)],
          [("bulklog.c.buffer", ["d"])], []⟩).2.1.hget "bulklog.c.pipes.u2"
      "iteration" = some "0" ∧
    (∀ c ∈ ["k"],
      (flush (RedisBuffer ⟨"c", 1, 10⟩ ["k"] 0 ⟨[], [], []⟩).1 1 "u1" "u2"
          [] ⟨[("bulklog.c.flushedAt", fmtTime 0)],
            [("bulklog.c.buffer", ["d"])], []⟩).2.1.hget
        "bulklog.c.pipes.u2.consumers" c =
        some (consumerEntry false (1 + 1))) ∧
    (flush (RedisBuffer ⟨"c", 1, 10⟩ ["k"] 0 ⟨[], [], []⟩).1 1 "u1" "u2"
        [] ⟨[("bulklog.c.flushedAt", fmtTime 0)],
          [("bulklog.c.buffer", ["d"])], []⟩).2.1.getList
      "bulklog.c.pipes.u2.buffer" = ["d"] ∧
    (flush (RedisBuffer ⟨"c", 1, 10⟩ ["k"] 0 ⟨[], [], []⟩).1 1 "u1" "u2"
        [] ⟨[("bulklog.c.flushedAt", fmtTime 0)],
          [("bulklog.c.buffer", ["d"])], []⟩).2.1.getList
      "bulklog.c.buffer" = []) :=
  ⟨rfl, by decide, by decide, by decide, by decide, rfl,
    flush_seals_buffer_into_pipe ⟨"c", 1, 10⟩ ["k"] 0 ⟨[], [], []⟩
      ⟨[("bulklog.c.flushedAt", fmtTime 0)],
        [("bulklog.c.buffer", ["d"])], []⟩ 1 0 "u1" "u2" (fmtTime 0)
      (RedisBuffer ⟨"c", 1, 10⟩ ["k"] 0 ⟨[], [], []⟩).1 rfl rfl (by decide)
      (by decide) (by decide) (by decide) rfl⟩

/-! ## base64 and gob round trip (claim C9) -/

theorem b64d_b64c_fin : ∀ s : Fin 64, b64d (b64c s.val) = some s.val := by
  decide

theorem b64d_b64c {s : Nat} (h : s < 64) : b64d (b64c s) = some s :=
  b64d_b64c_fin ⟨s, h⟩

theorem b64c_ne_pad_fin : ∀ s : Fin 64, b64c s.val ≠ '=' := by
  decide

theorem b64c_ne_pad {s : Nat} (h : s < 64) : b64c s ≠ '=' :=
  b64c_ne_pad_fin ⟨s, h⟩

theorem b64_roundtrip :
    ∀ bs : List Nat, (∀ x ∈ bs, x < 256) → b64dec (b64enc bs) = some bs
  | [], _ => rfl
  | [a], h => by
    have ha : a < 256 := h a (by simp)
    simp only [b64enc, b64dec, b64d_b64c (show a * 65536 / 262144 < 64 by
      omega), b64d_b64c (show a * 65536 / 4096 % 64 < 64 by omega)]
    simp only [if_pos rfl, and_self, if_pos]
    congr 2
    omega
  | [a, b], h => by
    have ha : a < 256 := h a (by simp)
    have hb : b < 256 := h b (by simp)
    have hne : b64c ((a * 65536 + b * 256) / 64 % 64) ≠ '=' :=
      b64c_ne_pad (by omega)
    simp only [b64enc, b64dec,
      b64d_b64c (show (a * 65536 + b * 256) / 262144 < 64 by omega),
      b64d_b64c (show (a * 65536 + b * 256) / 4096 % 64 < 64 by omega),
      b64d_b64c (show (a * 65536 + b * 256) / 64 % 64 < 64 by omega),
      if_neg hne]
    norm_num
    omega
  | a :: b :: c :: rest, h => by
    have ha : a < 256 := h a (by simp)
    have hb : b < 256 := h b (by simp)
    have hc : c < 256 := h c (by simp)
    have hrest : ∀ x ∈ rest, x < 256 := fun x hx => h x (by simp [hx])
    simp only [b64enc, b64dec,
      b64d_b64c (show (a * 65536 + b * 256 + c) / 262144 < 64 by omega),
      b64d_b64c (show (a * 65536 + b * 256 + c) / 4096 % 64 < 64 by omega),
      b64d_b64c (show (a * 65536 + b * 256 + c) / 64 % 64 < 64 by omega),
      b64d_b64c (show (a * 65536 + b * 256 + c) % 64 < 64 by omega)]
    rw [if_neg (b64c_ne_pad (show (a * 65536 + b * 256 + c) / 64 % 64 < 64
      by omega)), if_neg (b64c_ne_pad (show (a * 65536 + b * 256 + c) % 64
      < 64 by omega)), b64_roundtrip rest hrest]
    simp only [Option.map_some']
    congr 4
    · omega
    · omega
    · omega

theorem decU64_encU64 {n : Nat} (rest : List Nat)
    (h : n < 18446744073709551616) :
    decU64 (encU64 n ++ rest) = some (n, rest) := by
  simp only [encU64, List.cons_append, List.nil_append, decU64]
  congr 2
  omega

theorem encU64_lt (n : Nat) : ∀ x ∈ encU64 n, x < 256 := by
  simp only [encU64, List.mem_cons, List.not_mem_nil, or_false]
  intro x hx
  rcases hx with h | h | h | h | h | h | h | h <;> omega

theorem decNats_enc (bs : List Nat) :
    ∀ rest, (∀ x ∈ bs, x < 18446744073709551616) →
      decNats bs.length ((bs.map encU64).flatten ++ rest) =
        some (bs, rest) := by
  induction bs with
  | nil => intro rest _; rfl
  | cons a t ih =>
    intro rest hx
    simp only [List.map_cons, List.flatten_cons, List.length_cons,
      List.append_assoc, decNats]
    rw [decU64_encU64 _ (hx a (by simp))]
    simp only [Option.some_bind]
    rw [ih rest (fun x hm => hx x (by simp [hm]))]
    rfl

theorem decBytes_encBytes (bs : List Nat) (rest : List Nat)
    (hlen : bs.length < 18446744073709551616)
    (hx : ∀ x ∈ bs, x < 18446744073709551616) :
    decBytes (encBytes bs ++ rest) = some (bs, rest) := by
  simp only [encBytes, decBytes, List.append_assoc, decU64_encU64 _ hlen]
  exact decNats_enc bs rest hx

theorem char_toNat_lt (c : Char) : c.toNat < 1114112 := by
  have := c.valid
  rcases this with h | ⟨h1, h2⟩
  · simp [Char.toNat]; omega
  · simp [Char.toNat]; omega

theorem decChars_enc (cs : List Char) :
    ∀ rest,
      decChars cs.length ((cs.map (fun c => encU64 c.toNat)).flatten ++
        rest) = some (cs, rest) := by
  induction cs with
  | nil => intro rest; rfl
  | cons a t ih =>
    intro rest
    simp only [List.map_cons, List.flatten_cons, List.length_cons,
      List.append_assoc, decChars]
    rw [decU64_encU64 _ (by have := char_toNat_lt a; omega)]
    simp only [Option.some_bind]
    rw [ih rest]
    simp [Char.ofNat_toNat]

theorem decStr_encStr (s : String) (rest : List Nat)
    (hlen : s.length < 18446744073709551616) :
    decStr (encStr s ++ rest) = some (s, rest) := by
  simp only [encStr, decStr, List.append_assoc]
  rw [decU64_encU64 _ hlen]
  simp only [Option.some_bind]
  rw [show (s.length : Nat) = s.data.length from rfl, decChars_enc s.data
    rest]
  rfl

theorem decInt_encInt (t : Int) (rest : List Nat)
    (h : t.natAbs < 18446744073709551616) :
    decInt (encInt t ++ rest) = some (t, rest) := by
  by_cases ht : t < 0
  · simp only [encInt, if_pos ht, List.cons_append, decInt]
    rw [decU64_encU64 _ h]
    have hv : -(t.natAbs : Int) = t := by omega
    simp only [Option.map_some', if_true]
    rw [hv]
  · simp only [encInt, if_neg ht, List.cons_append, decInt]
    rw [decU64_encU64 _ h]
    have hv : ((t.natAbs : Int)) = t := by omega
    simp only [Option.map_some']
    rw [hv, if_neg (by omega : ¬ (0 : Nat) = 1)]

theorem gob_roundtrip (d : Document)
    (hid : ∀ x ∈ d.ID, x < 18446744073709551616)
    (hidlen : d.ID.length < 18446744073709551616)
    (hpa : d.PostedAt.natAbs < 18446744073709551616)
    (hcn : d.CollectionName.length < 18446744073709551616)
    (hsn : d.SchemaName.length < 18446744073709551616)
    (hbody : d.Body.length < 18446744073709551616) :
    gobDecodeDoc (gobEncodeDoc d) = some d := by
  have hsplit : gobEncodeDoc d =
      encBytes d.ID ++ (encInt d.PostedAt ++ (encStr d.CollectionName ++
        (encStr d.SchemaName ++ (encStr d.Body ++ [])))) := by
    simp [gobEncodeDoc, List.append_assoc]
  rw [gobDecodeDoc, hsplit, decBytes_encBytes _ _ hidlen hid]
  simp only [Option.some_bind]
  rw [decInt_encInt _ _ hpa]
  simp only [Option.some_bind]
  rw [decStr_encStr _ _ hcn]
  simp only [Option.some_bind]
  rw [decStr_encStr _ _ hsn]
  simp only [Option.some_bind]
  rw [decStr_encStr _ _ hbody]
  simp only [Option.some_bind]
  simp

theorem encU64_all_lt_256 (n : Nat) : ∀ x ∈ encU64 n, x < 256 :=
  encU64_lt n

theorem flatten_map_encU64_lt (l : List Nat) :
    ∀ x ∈ (l.map encU64).flatten, x < 256 := by
  intro x hx
  rcases List.mem_flatten.mp hx with ⟨sub, hsub, hxm⟩
  rcases List.mem_map.mp hsub with ⟨n, _, rfl⟩
  exact encU64_lt n x hxm

theorem flatten_map_encChar_lt (l : List Char) :
    ∀ x ∈ (l.map (fun c => encU64 c.toNat)).flatten, x < 256 := by
  intro x hx
  rcases List.mem_flatten.mp hx with ⟨sub, hsub, hxm⟩
  rcases List.mem_map.mp hsub with ⟨n, _, rfl⟩
  exact encU64_lt n.toNat x hxm

theorem encBytes_lt (bs : List Nat) : ∀ x ∈ encBytes bs, x < 256 := by
  intro x hx
  rcases List.mem_append.mp hx with h | h
  · exact encU64_lt _ x h
  · exact flatten_map_encU64_lt _ x h

theorem encStr_lt (s : String) : ∀ x ∈ encStr s, x < 256 := by
  intro x hx
  rcases List.mem_append.mp hx with h | h
  · exact encU64_lt _ x h
  · exact flatten_map_encChar_lt _ x h

theorem encInt_lt (t : Int) : ∀ x ∈ encInt t, x < 256 := by
  intro x hx
  rcases List.mem_cons.mp hx with h | h
  · rw [h]; split <;> omega
  · exact encU64_lt _ x h

theorem gobEncodeDoc_lt (d : Document) :
    ∀ x ∈ gobEncodeDoc d, x < 256 := by
  intro x hx
  rw [gobEncodeDoc] at hx
  rcases List.mem_append.mp hx with h | h
  · rcases List.mem_append.mp h with h | h
    · rcases List.mem_append.mp h with h | h
      · rcases List.mem_append.mp h with h | h
        · exact encBytes_lt _ x h
        · exact encInt_lt _ x h
      · exact encStr_lt _ x h
    · exact encStr_lt _ x h
  · exact encStr_lt _ x h

/-- Claim C9: the document wire encoding round-trips: decoding the base64
encoded binary serialization produced by Append yields a document equal to
the original in all five fields.  The bounds ask every serialized count to
fit the 64-bit length fields of the serialization. -/
theorem document_wire_roundtrip (d : Document)
    (hid : ∀ x ∈ d.ID, x < 18446744073709551616)
    (hidlen : d.ID.length < 18446744073709551616)
    (hpa : d.PostedAt.natAbs < 18446744073709551616)
    (hcn : d.CollectionName.length < 18446744073709551616)
    (hsn : d.SchemaName.length < 18446744073709551616)
    (hbody : d.Body.length < 18446744073709551616) :
    decodeDoc (encodeDoc d) = some d := by
  rw [decodeDoc, encodeDoc]
  have hdata : (String.mk (b64enc (gobEncodeDoc d))).data =
      b64enc (gobEncodeDoc d) := rfl
  rw [hdata, b64_roundtrip _ (gobEncodeDoc_lt d)]
  simp only [Option.some_bind]
  exact gob_roundtrip d hid hidlen hpa hcn hsn hbody

/-- Witness for document_wire_roundtrip at a concrete document. -/
theorem document_wire_roundtrip_witness :
    (∀ x ∈ [(1 : Nat), 2], x < 18446744073709551616) ∧
    decodeDoc (encodeDoc ⟨[1, 2], -7, "c", "s", "x"⟩) =
      some ⟨[1, 2], -7, "c", "s", "x"⟩ :=
  ⟨by decide,
    document_wire_roundtrip ⟨[1, 2], -7, "c", "s", "x"⟩ (by decide)
      (by decide) (by decide) (by decide) (by decide) (by decide)⟩

/-! ## JSON string-literal escaping round trip -/

theorem isDigit_toNat {c : Char} (h : c.isDigit = true) :
    48 ≤ c.toNat ∧ c.toNat ≤ 57 := by
  simp only [Char.isDigit, Bool.and_eq_true, decide_eq_true_eq] at h
  exact ⟨h.1, h.2⟩

theorem toNat_isDigit {c : Char} (h1 : 48 ≤ c.toNat) (h2 : c.toNat ≤ 57) :
    c.isDigit = true := by
  simp only [Char.isDigit, Bool.and_eq_true, decide_eq_true_eq]
  exact ⟨h1, h2⟩

theorem char_ne_of_toNat {c d : Char} (h : c.toNat ≠ d.toNat) : c ≠ d :=
  fun he => h (he ▸ rfl)

theorem hexVal_hexDig_fin : ∀ d : Fin 16, hexVal (hexDig d.val) = some d.val := by
  decide

theorem hexVal_hexDig {d : Nat} (h : d < 16) : hexVal (hexDig d) = some d :=
  hexVal_hexDig_fin ⟨d, h⟩

theorem escL_cons (c : Char) (l : List Char) :
    escL (c :: l) = escC c ++ escL l := by
  simp [escL]

theorem escC_length_pos (c : Char) : 1 ≤ (escC c).length := by
  simp only [escC]
  split_ifs <;> simp [hexDig4]

theorem parseStrBodyF_escL :
    ∀ (cs : List Char) (rest : List Char) (fuel : Nat),
      (escL cs ++ '"' :: rest).length < fuel →
      parseStrBodyF fuel (escL cs ++ '"' :: rest) = some (cs, rest)
  | [], rest, fuel, hf => by
    obtain ⟨f, rfl⟩ : ∃ f, fuel = f + 1 := ⟨fuel - 1, by omega⟩
    rw [escL, parseStrBodyF.eq_def]
    simp
  | c :: cs, rest, fuel, hf => by
    obtain ⟨f, rfl⟩ : ∃ f, fuel = f + 1 := ⟨fuel - 1, by omega⟩
    rw [escL_cons, List.append_assoc]
    rw [escL_cons, List.append_assoc, List.length_append] at hf
    have hrec : (escL cs ++ '"' :: rest).length < f := by
      have h := escC_length_pos c
      omega
    by_cases h1 : c = '"'
    · subst h1
      show parseStrBodyF (f + 1)
        ('\\' :: '"' :: (escL cs ++ '"' :: rest)) = _
      rw [parseStrBodyF.eq_def]
      simp [escCharOf, parseStrBodyF_escL cs rest f hrec]
    · by_cases h2 : c = '\\'
      · subst h2
        show parseStrBodyF (f + 1)
          ('\\' :: '\\' :: (escL cs ++ '"' :: rest)) = _
        rw [parseStrBodyF.eq_def]
        simp [escCharOf, parseStrBodyF_escL cs rest f hrec]
      · by_cases h3 : c = '\n'
        · subst h3
          show parseStrBodyF (f + 1)
            ('\\' :: 'n' :: (escL cs ++ '"' :: rest)) = _
          rw [parseStrBodyF.eq_def]
          simp [escCharOf, parseStrBodyF_escL cs rest f hrec]
        · by_cases h4 : c = '\r'
          · subst h4
            show parseStrBodyF (f + 1)
              ('\\' :: 'r' :: (escL cs ++ '"' :: rest)) = _
            rw [parseStrBodyF.eq_def]
            simp [escCharOf, parseStrBodyF_escL cs rest f hrec]
          · by_cases h5 : c = '\t'
            · subst h5
              show parseStrBodyF (f + 1)
                ('\\' :: 't' :: (escL cs ++ '"' :: rest)) = _
              rw [parseStrBodyF.eq_def]
              simp [escCharOf, parseStrBodyF_escL cs rest f hrec]
            · by_cases h6 : c.toNat < 32 ∨ c = '<' ∨ c = '>' ∨ c = '&'
              · have h6b : (decide (c.toNat < 32) || decide (c = '<') ||
                    decide (c = '>') || decide (c = '&')) = true := by
                  rcases h6 with h | h | h | h <;> simp [h]
                have hlt : c.toNat < 65536 := by
                  rcases h6 with h | h | h | h
                  · omega
                  · rw [h]; decide
                  · rw [h]; decide
                  · rw [h]; decide
                have hsur1 : ¬ (55296 ≤ c.toNat ∧ c.toNat < 56320) := by
                  rcases h6 with h | h | h | h
                  · omega
                  · rw [h]; decide
                  · rw [h]; decide
                  · rw [h]; decide
                have hsur2 : ¬ (56320 ≤ c.toNat ∧ c.toNat < 57344) := by
                  rcases h6 with h | h | h | h
                  · omega
                  · rw [h]; decide
                  · rw [h]; decide
                  · rw [h]; decide
                have hesc : escC c = '\\' :: 'u' ::
                    [hexDig (c.toNat / 4096 % 16), hexDig (c.toNat / 256 %
                      16), hexDig (c.toNat / 16 % 16), hexDig (c.toNat %
                      16)] := by
                  simp only [escC, if_neg h1, if_neg h2, if_neg h3,
                    if_neg h4, if_neg h5, h6b, if_true, hexDig4]
                rw [hesc]
                show parseStrBodyF (f + 1) ('\\' :: 'u' ::
                  hexDig (c.toNat / 4096 % 16) :: hexDig (c.toNat / 256 %
                    16) :: hexDig (c.toNat / 16 % 16) :: hexDig (c.toNat %
                    16) :: (escL cs ++ '"' :: rest)) = _
                rw [parseStrBodyF.eq_def]
                simp only [reduceIte,
                  hexVal_hexDig (show c.toNat / 4096 % 16 < 16 by omega),
                  hexVal_hexDig (show c.toNat / 256 % 16 < 16 by omega),
                  hexVal_hexDig (show c.toNat / 16 % 16 < 16 by omega),
                  hexVal_hexDig (show c.toNat % 16 < 16 by omega)]
                have hval : ((c.toNat / 4096 % 16 * 16 + c.toNat / 256 %
                    16) * 16 + c.toNat / 16 % 16) * 16 + c.toNat % 16 =
                    c.toNat := by omega
                rw [hval, if_neg hsur1, if_neg hsur2,
                  parseStrBodyF_escL cs rest f hrec]
                simp [Char.ofNat_toNat]
              · by_cases h7 : c.toNat = 8232 ∨ c.toNat = 8233
                · have h6b : (decide (c.toNat < 32) || decide (c = '<') ||
                      decide (c = '>') || decide (c = '&')) = false := by
                    push_neg at h6
                    simp [h6.1, h6.2.1, h6.2.2.1, h6.2.2.2]
                  have h7b : (decide (c.toNat = 8232) ||
                      decide (c.toNat = 8233)) = true := by
                    rcases h7 with h | h <;> simp [h]
                  have hsur1 : ¬ (55296 ≤ c.toNat ∧ c.toNat < 56320) := by
                    rcases h7 with h | h <;> omega
                  have hsur2 : ¬ (56320 ≤ c.toNat ∧ c.toNat < 57344) := by
                    rcases h7 with h | h <;> omega
                  have hesc : escC c = '\\' :: 'u' ::
                      [hexDig (c.toNat / 4096 % 16), hexDig (c.toNat / 256
                        % 16), hexDig (c.toNat / 16 % 16), hexDig (c.toNat
                        % 16)] := by
                    simp only [escC, if_neg h1, if_neg h2, if_neg h3,
                      if_neg h4, if_neg h5, h6b, Bool.false_eq_true,
                      if_false, h7b, if_true, hexDig4]
                  rw [hesc]
                  show parseStrBodyF (f + 1) ('\\' :: 'u' ::
                    hexDig (c.toNat / 4096 % 16) :: hexDig (c.toNat / 256 %
                      16) :: hexDig (c.toNat / 16 % 16) :: hexDig (c.toNat
                      % 16) :: (escL cs ++ '"' :: rest)) = _
                  rw [parseStrBodyF.eq_def]
                  simp only [reduceIte,
                    hexVal_hexDig (show c.toNat / 4096 % 16 < 16 by omega),
                    hexVal_hexDig (show c.toNat / 256 % 16 < 16 by omega),
                    hexVal_hexDig (show c.toNat / 16 % 16 < 16 by omega),
                    hexVal_hexDig (show c.toNat % 16 < 16 by omega)]
                  have hval : ((c.toNat / 4096 % 16 * 16 + c.toNat / 256 %
                      16) * 16 + c.toNat / 16 % 16) * 16 + c.toNat % 16 =
                      c.toNat := by omega
                  rw [hval, if_neg hsur1, if_neg hsur2,
                    parseStrBodyF_escL cs rest f hrec]
                  simp [Char.ofNat_toNat]
                · have h6b : (decide (c.toNat < 32) || decide (c = '<') ||
                      decide (c = '>') || decide (c = '&')) = false := by
                    push_neg at h6
                    simp [h6.1, h6.2.1, h6.2.2.1, h6.2.2.2]
                  have h7b : (decide (c.toNat = 8232) ||
                      decide (c.toNat = 8233)) = false := by
                    push_neg at h7
                    simp [h7.1, h7.2]
                  have hge : ¬ c.toNat < 32 := by
                    push_neg at h6
                    omega
                  have hesc : escC c = [c] := by
                    simp only [escC, if_neg h1, if_neg h2, if_neg h3,
                      if_neg h4, if_neg h5, h6b, Bool.false_eq_true,
                      if_false, h7b]
                  rw [hesc]
                  show parseStrBodyF (f + 1)
                    (c :: (escL cs ++ '"' :: rest)) = _
                  rw [parseStrBodyF.eq_def]
                  simp only [if_neg h1, if_neg h2, if_neg hge,
                    parseStrBodyF_escL cs rest f hrec, Option.map_some']

theorem parseStrBody_escL (cs : List Char) (rest : List Char) :
    parseStrBody (escL cs ++ '"' :: rest) = some (cs, rest) :=
  parseStrBodyF_escL cs rest ((escL cs ++ '"' :: rest).length + 1)
    (Nat.lt_succ_self _)

/-! ## Number tokens and value head characters -/

theorem span_tok (tok rest : List Char)
    (hall : ∀ c ∈ tok, numChar c = true)
    (hrest : ∀ c, rest.head? = some c → numChar c = false) :
    (tok ++ rest).takeWhile numChar = tok ∧
    (tok ++ rest).dropWhile numChar = rest := by
  induction tok with
  | nil =>
    cases rest with
    | nil => simp
    | cons c r =>
      have hc := hrest c rfl
      simp [List.takeWhile, List.dropWhile, hc]
  | cons c t ih =>
    have hc := hall c (by simp)
    have iht := ih (fun x hx => hall x (by simp [hx]))
    simp [List.takeWhile, List.dropWhile, hc, iht.1, iht.2]

theorem grammarNum_head {c : Char} {cs : List Char}
    (h : grammarNum (c :: cs) = true) : c = '-' ∨ c.isDigit = true := by
  by_cases hc : c = '-'
  · exact Or.inl hc
  · right
    rw [grammarNum] at h
    simp only [List.head?_cons, Option.some.injEq, hc, if_false] at h
    rw [gnInt.eq_def] at h
    simp only at h
    by_cases h0 : c = '0'
    · rw [h0]
      decide
    · rw [if_neg h0] at h
      by_cases hd : c.isDigit = true
      · exact hd
      · rw [if_neg hd] at h
        simp at h

theorem digit_head_facts {c : Char} (h : c = '-' ∨ c.isDigit = true) :
    jws c = false ∧ c ≠ 'n' ∧ c ≠ 't' ∧ c ≠ 'f' ∧ c ≠ '"' ∧ c ≠ '[' ∧
      c ≠ '{' ∧ c ≠ ']' ∧ c ≠ '}' ∧ numChar c = true := by
  rcases h with h | h
  · subst h
    refine ⟨by decide, by decide, by decide, by decide, by decide,
      by decide, by decide, by decide, by decide, by decide⟩
  · obtain ⟨h48, h57⟩ := isDigit_toNat h
    have f1 : c ≠ ' ' := char_ne_of_toNat (by
      rw [show (' ').toNat = 32 from rfl]; omega)
    have f2 : c ≠ '\t' := char_ne_of_toNat (by
      rw [show ('\t').toNat = 9 from rfl]; omega)
    have f3 : c ≠ '\n' := char_ne_of_toNat (by
      rw [show ('\n').toNat = 10 from rfl]; omega)
    have f4 : c ≠ '\r' := char_ne_of_toNat (by
      rw [show ('\r').toNat = 13 from rfl]; omega)
    refine ⟨by simp [jws, f1, f2, f3, f4], ?_, ?_, ?_, ?_, ?_, ?_, ?_, ?_,
      by simp [numChar, h]⟩
    · exact char_ne_of_toNat (by rw [show ('n').toNat = 110 from rfl]; omega)
    · exact char_ne_of_toNat (by rw [show ('t').toNat = 116 from rfl]; omega)
    · exact char_ne_of_toNat (by rw [show ('f').toNat = 102 from rfl]; omega)
    · exact char_ne_of_toNat (by rw [show ('"').toNat = 34 from rfl]; omega)
    · exact char_ne_of_toNat (by rw [show ('[').toNat = 91 from rfl]; omega)
    · exact char_ne_of_toNat (by
        rw [show ('\x7b').toNat = 123 from rfl]; omega)
    · exact char_ne_of_toNat (by rw [show (']').toNat = 93 from rfl]; omega)
    · exact char_ne_of_toNat (by
        rw [show ('\x7d').toNat = 125 from rfl]; omega)

theorem skipWs_cons {c : Char} (cs : List Char) (h : jws c = false) :
    skipWs (c :: cs) = c :: cs := by
  rw [skipWs.eq_def]
  simp [h]

theorem wfNum_parts {tok : String} (h : wfNum tok = true) :
    tok.data ≠ [] ∧ (∀ c ∈ tok.data, numChar c = true) ∧
      grammarNum tok.data = true := by
  simp only [wfNum, Bool.and_eq_true, Bool.not_eq_true',
    List.isEmpty_eq_false_iff_exists_mem, List.all_eq_true] at h
  obtain ⟨⟨hne, hall⟩, hg⟩ := h
  exact ⟨by rcases hne with ⟨x, hx⟩; exact List.ne_nil_of_mem hx,
    hall, hg⟩

theorem marshalV_head (v : Json) (hwf : wfJ v = true) :
    ∃ c cs', marshalV v = c :: cs' ∧ jws c = false ∧ c ≠ ']' ∧ c ≠ '}' := by
  cases v with
  | null => refine ⟨'n', _, rfl, ?_, ?_, ?_⟩ <;> decide
  | bool b =>
    cases b
    · refine ⟨'f', _, rfl, ?_, ?_, ?_⟩ <;> decide
    · refine ⟨'t', _, rfl, ?_, ?_, ?_⟩ <;> decide
  | str s => refine ⟨'"', _, rfl, ?_, ?_, ?_⟩ <;> decide
  | arr xs => refine ⟨'[', _, rfl, ?_, ?_, ?_⟩ <;> decide
  | obj kvs => refine ⟨'\x7b', _, rfl, ?_, ?_, ?_⟩ <;> decide
  | num tok =>
    obtain ⟨hne, hall, hg⟩ := wfNum_parts hwf
    obtain ⟨c, cs0, hc⟩ : ∃ c cs0, tok.data = c :: cs0 := by
      cases h : tok.data with
      | nil => exact absurd h hne
      | cons c cs0 => exact ⟨c, cs0, rfl⟩
    have hd := grammarNum_head (hc ▸ hg)
    obtain ⟨hws, _, _, _, _, _, _, hb1, hb2, _⟩ := digit_head_facts hd
    exact ⟨c, cs0, by rw [show marshalV (.num tok) = tok.data from rfl, hc],
      hws, hb1, hb2⟩

/-! ## Fuel bounds and parser output well-formedness -/

mutual
theorem needBound : ∀ (v : Json), wfJ v = true →
    needF v ≤ 2 * (marshalV v).length
  | .null, _ => by simp [needF, marshalV]
  | .bool b, _ => by cases b <;> simp [needF, marshalV]
  | .num tok, h => by
    obtain ⟨hne, _, _⟩ := wfNum_parts h
    have h1 : 1 ≤ tok.data.length := by
      cases htok : tok.data with
      | nil => exact absurd htok hne
      | cons c cs => simp
    simp only [needF, marshalV, List.length_nil]
    omega
  | .str s, _ => by
    simp only [needF, marshalV, List.length_cons]
    omega
  | .arr xs, h => by
    have hL := needBoundL xs h
    simp only [needF, marshalV, List.length_cons, List.length_append,
      List.length_singleton]
    omega
  | .obj kvs, h => by
    have hL := needBoundKV kvs h
    simp only [needF, marshalV, List.length_cons, List.length_append,
      List.length_singleton]
    omega

theorem needBoundL : ∀ (xs : List Json), wfL xs = true →
    needL xs ≤ 2 * (marshalL xs).length + 1
  | [], _ => by simp [needL, marshalL]
  | [x], h => by
    have hx : wfJ x = true := by
      simp only [wfL, Bool.and_eq_true] at h
      exact h.1
    have h1 := needBound x hx
    simp only [needL, marshalL]
    omega
  | x :: y :: t, h => by
    have hs : wfJ x = true ∧ wfL (y :: t) = true := by
      simp only [wfL, Bool.and_eq_true] at h
      exact ⟨h.1, by simp [wfL, h.2.1, h.2.2]⟩
    have h1 := needBound x hs.1
    have h2 := needBoundL (y :: t) hs.2
    simp only [needL, marshalL, List.length_append, List.length_cons]
      at h2 ⊢
    omega

theorem needBoundKV : ∀ (kvs : List (String × Json)), wfKVs kvs = true →
    needKV kvs ≤ 2 * (marshalKVs kvs).length + 1
  | [], _ => by simp [needKV, marshalKVs]
  | [(k, v)], h => by
    have hv : wfJ v = true := by
      simp only [wfKVs, Bool.and_eq_true] at h
      exact h.1
    have h1 := needBound v hv
    simp only [needKV, marshalKVs, List.length_cons, List.length_append]
    omega
  | (k, v) :: p :: t, h => by
    have hs : wfJ v = true ∧ wfKVs (p :: t) = true := by
      rcases p with ⟨k2, v2⟩
      simp only [wfKVs, Bool.and_eq_true] at h
      exact ⟨h.1, by simp [wfKVs, h.2.1, h.2.2]⟩
    have h1 := needBound v hs.1
    have h2 := needBoundKV (p :: t) hs.2
    simp only [needKV, marshalKVs, List.length_append, List.length_cons]
      at h2 ⊢
    omega
end

theorem parseV_succ (f : Nat) (cs : List Char) :
    parseV (f + 1) cs =
      match skipWs cs with
      | [] => none
      | c :: rest =>
        if c = 'n' then
          match rest with
          | 'u' :: 'l' :: 'l' :: rest2 => some (.null, rest2)
          | _ => none
        else if c = 't' then
          match rest with
          | 'r' :: 'u' :: 'e' :: rest2 => some (.bool true, rest2)
          | _ => none
        else if c = 'f' then
          match rest with
          | 'a' :: 'l' :: 's' :: 'e' :: rest2 => some (.bool false, rest2)
          | _ => none
        else if c = '"' then
          (parseStrBody rest).map (fun p => (Json.str (String.mk p.1), p.2))
        else if c = '[' then
          if (skipWs rest).head? = some ']' then
            some (.arr [], (skipWs rest).tail)
          else
            (parseElems f (skipWs rest)).map
              (fun p => (Json.arr p.1, p.2))
        else if c = '\x7b' then
          if (skipWs rest).head? = some '\x7d' then
            some (.obj [], (skipWs rest).tail)
          else
            (parseMembers f (skipWs rest)).map
              (fun p => (Json.obj p.1, p.2))
        else if numChar c then
          if grammarNum ((c :: rest).takeWhile numChar) then
            some (.num (String.mk ((c :: rest).takeWhile numChar)),
              (c :: rest).dropWhile numChar)
          else none
        else none := rfl

theorem parseElems_succ (f : Nat) (cs : List Char) :
    parseElems (f + 1) cs =
      match parseV f cs with
      | some (v, r) =>
        match skipWs r with
        | ',' :: r2 => (parseElems f r2).map (fun p => (v :: p.1, p.2))
        | ']' :: r2 => some ([v], r2)
        | _ => none
      | none => none := rfl

theorem parseMembers_succ (f : Nat) (cs : List Char) :
    parseMembers (f + 1) cs =
      match skipWs cs with
      | '"' :: rest =>
        match parseStrBody rest with
        | some (k, r) =>
          match skipWs r with
          | ':' :: r2 =>
            match parseV f r2 with
            | some (v, r3) =>
              match skipWs r3 with
              | ',' :: r4 =>
                (parseMembers f r4).map
                  (fun p => ((String.mk k, v) :: p.1, p.2))
              | '\x7d' :: r4 => some ([(String.mk k, v)], r4)
              | _ => none
            | none => none
          | _ => none
        | none => none
      | _ => none := rfl

theorem parseWf :
    ∀ fuel : Nat,
      (∀ cs v r, parseV fuel cs = some (v, r) → wfJ v = true) ∧
      (∀ cs vs r, parseElems fuel cs = some (vs, r) → wfL vs = true) ∧
      (∀ cs kvs r, parseMembers fuel cs = some (kvs, r) →
        wfKVs kvs = true) := by
  intro fuel
  induction fuel with
  | zero =>
    refine ⟨?_, ?_, ?_⟩
    · intro cs v r h
      rw [parseV.eq_def] at h
      simp at h
    · intro cs v r h
      rw [parseElems.eq_def] at h
      simp at h
    · intro cs v r h
      rw [parseMembers.eq_def] at h
      simp at h
  | succ f ih =>
    obtain ⟨ihV, ihE, ihM⟩ := ih
    refine ⟨?_, ?_, ?_⟩
    · intro cs v r h
      rw [parseV_succ] at h
      split at h
      · simp at h
      · rename_i c rest heq
        by_cases hn : c = 'n'
        · rw [if_pos hn] at h
          split at h
          · simp only [Option.some.injEq, Prod.mk.injEq] at h
            rw [← h.1]
            rfl
          · simp at h
        · rw [if_neg hn] at h
          by_cases ht : c = 't'
          · rw [if_pos ht] at h
            split at h
            · simp only [Option.some.injEq, Prod.mk.injEq] at h
              rw [← h.1]
              rfl
            · simp at h
          · rw [if_neg ht] at h
            by_cases hf : c = 'f'
            · rw [if_pos hf] at h
              split at h
              · simp only [Option.some.injEq, Prod.mk.injEq] at h
                rw [← h.1]
                rfl
              · simp at h
            · rw [if_neg hf] at h
              by_cases hq : c = '"'
              · rw [if_pos hq] at h
                cases hp : parseStrBody rest with
                | none => rw [hp] at h; simp at h
                | some p =>
                  rw [hp] at h
                  simp only [Option.map_some', Option.some.injEq,
                    Prod.mk.injEq] at h
                  rw [← h.1]
                  rfl
              · rw [if_neg hq] at h
                by_cases hl : c = '['
                · rw [if_pos hl] at h
                  by_cases hh : (skipWs rest).head? = some ']'
                  · rw [if_pos hh] at h
                    simp only [Option.some.injEq, Prod.mk.injEq] at h
                    rw [← h.1]
                    rfl
                  · rw [if_neg hh] at h
                    cases he : parseElems f (skipWs rest) with
                    | none => rw [he] at h; simp at h
                    | some p =>
                      rw [he] at h
                      simp only [Option.map_some', Option.some.injEq,
                        Prod.mk.injEq] at h
                      rw [← h.1]
                      exact ihE _ p.1 p.2 (by rw [he])
                · rw [if_neg hl] at h
                  by_cases ho : c = '\x7b'
                  · rw [if_pos ho] at h
                    by_cases hh : (skipWs rest).head? = some '\x7d'
                    · rw [if_pos hh] at h
                      simp only [Option.some.injEq, Prod.mk.injEq] at h
                      rw [← h.1]
                      rfl
                    · rw [if_neg hh] at h
                      cases he : parseMembers f (skipWs rest) with
                      | none => rw [he] at h; simp at h
                      | some p =>
                        rw [he] at h
                        simp only [Option.map_some', Option.some.injEq,
                          Prod.mk.injEq] at h
                        rw [← h.1]
                        exact ihM _ p.1 p.2 (by rw [he])
                  · rw [if_neg ho] at h
                    by_cases hnum : numChar c = true
                    · rw [if_pos hnum] at h
                      by_cases hg : grammarNum
                          ((c :: rest).takeWhile numChar) = true
                      · rw [if_pos hg] at h
                        simp only [Option.some.injEq, Prod.mk.injEq] at h
                        rw [← h.1]
                        show wfNum (String.mk ((c :: rest).takeWhile
                          numChar)) = true
                        have hall : ∀ x ∈ (c :: rest).takeWhile numChar,
                            numChar x = true :=
                          fun x hx => List.mem_takeWhile_imp hx
                        simp only [wfNum, Bool.and_eq_true,
                          Bool.not_eq_true', List.all_eq_true]
                        refine ⟨⟨?_, hall⟩, hg⟩
                        rw [List.takeWhile_cons, if_pos hnum]
                        simp
                      · rw [if_neg hg] at h
                        simp at h
                    · rw [if_neg hnum] at h
                      simp at h
    · intro cs vs r h
      rw [parseElems_succ] at h
      cases hv : parseV f cs with
      | none => rw [hv] at h; simp at h
      | some p =>
        rw [hv] at h
        rcases p with ⟨pv, pr⟩
        have h2 : (match skipWs pr with
            | ',' :: r2 => (parseElems f r2).map (fun p => (pv :: p.1, p.2))
            | ']' :: r2 => some ([pv], r2)
            | _ => none) = some (vs, r) := h
        clear h
        split at h2
        · rename_i r2 heq2
          cases he : parseElems f r2 with
          | none => rw [he] at h2; simp at h2
          | some p2 =>
            rw [he] at h2
            simp only [Option.map_some', Option.some.injEq,
              Prod.mk.injEq] at h2
            rw [← h2.1]
            simp only [wfL, Bool.and_eq_true]
            exact ⟨ihV _ pv pr hv, ihE _ p2.1 p2.2 (by rw [he])⟩
        · simp only [Option.some.injEq, Prod.mk.injEq] at h2
          rw [← h2.1]
          simp only [wfL, Bool.and_eq_true]
          exact ⟨ihV _ pv pr hv, trivial⟩
        · simp at h2
    · intro cs kvs r h
      rw [parseMembers_succ] at h
      split at h
      · rename_i rest heq
        cases hp : parseStrBody rest with
        | none => rw [hp] at h; simp at h
        | some pk =>
          rw [hp] at h
          rcases pk with ⟨pk1, pk2⟩
          have h2 : (match skipWs pk2 with
              | ':' :: r2 =>
                match parseV f r2 with
                | some (v, r3) =>
                  match skipWs r3 with
                  | ',' :: r4 =>
                    (parseMembers f r4).map
                      (fun p => ((String.mk pk1, v) :: p.1, p.2))
                  | '}' :: r4 => some ([(String.mk pk1, v)], r4)
                  | _ => none
                | none => none
              | _ => none) = some (kvs, r) := h
          clear h
          split at h2
          · rename_i r2 heq2
            cases hv : parseV f r2 with
            | none => rw [hv] at h2; simp at h2
            | some p =>
              rw [hv] at h2
              rcases p with ⟨pv, pr⟩
              have h3 : (match skipWs pr with
                  | ',' :: r4 =>
                    (parseMembers f r4).map
                      (fun p => ((String.mk pk1, pv) :: p.1, p.2))
                  | '}' :: r4 => some ([(String.mk pk1, pv)], r4)
                  | _ => none) = some (kvs, r) := h2
              clear h2
              split at h3
              · rename_i r4 heq4
                cases hm : parseMembers f r4 with
                | none => rw [hm] at h3; simp at h3
                | some p2 =>
                  rw [hm] at h3
                  simp only [Option.map_some', Option.some.injEq,
                    Prod.mk.injEq] at h3
                  rw [← h3.1]
                  simp only [wfKVs, Bool.and_eq_true]
                  exact ⟨ihV _ pv pr hv, ihM _ p2.1 p2.2 (by rw [hm])⟩
              · simp only [Option.some.injEq, Prod.mk.injEq] at h3
                rw [← h3.1]
                simp only [wfKVs, Bool.and_eq_true]
                exact ⟨ihV _ pv pr hv, trivial⟩
              · simp at h3
          · simp at h2
      · simp at h

/-! ## Printer-parser round trip -/

mutual
theorem roundV : ∀ (v : Json), wfJ v = true → ∀ (fuel : Nat)
    (rest : List Char), needF v ≤ fuel →
    (∀ c, rest.head? = some c → numChar c = false) →
    parseV fuel (marshalV v ++ rest) = some (v, rest)
  | .null, _, fuel, rest, hfuel, _ => by
    have hf1 : 1 ≤ fuel := by simpa [needF] using hfuel
    obtain ⟨f, rfl⟩ : ∃ f, fuel = f + 1 := ⟨fuel - 1, by omega⟩
    rw [show marshalV Json.null ++ rest = 'n' :: 'u' :: 'l' :: 'l' :: rest
      from rfl, parseV_succ, skipWs_cons _ (by decide)]
    simp
  | .bool true, _, fuel, rest, hfuel, _ => by
    have hf1 : 1 ≤ fuel := by simpa [needF] using hfuel
    obtain ⟨f, rfl⟩ : ∃ f, fuel = f + 1 := ⟨fuel - 1, by omega⟩
    rw [show marshalV (Json.bool true) ++ rest =
      't' :: 'r' :: 'u' :: 'e' :: rest from rfl, parseV_succ,
      skipWs_cons _ (by decide)]
    simp
  | .bool false, _, fuel, rest, hfuel, _ => by
    have hf1 : 1 ≤ fuel := by simpa [needF] using hfuel
    obtain ⟨f, rfl⟩ : ∃ f, fuel = f + 1 := ⟨fuel - 1, by omega⟩
    rw [show marshalV (Json.bool false) ++ rest =
      'f' :: 'a' :: 'l' :: 's' :: 'e' :: rest from rfl, parseV_succ,
      skipWs_cons _ (by decide)]
    simp
  | .str s, _, fuel, rest, hfuel, _ => by
    have hf1 : 1 ≤ fuel := by simpa [needF] using hfuel
    obtain ⟨f, rfl⟩ : ∃ f, fuel = f + 1 := ⟨fuel - 1, by omega⟩
    have hsh : marshalV (.str s) ++ rest =
        '"' :: (escL s.data ++ ('"' :: rest)) := by
      show ('"' :: (escStr s ++ ['"'])) ++ rest = _
      simp [escStr, List.append_assoc]
    rw [hsh, parseV_succ, skipWs_cons _ (by decide)]
    simp only [if_neg (show ¬ ('"' : Char) = 'n' by decide),
      if_neg (show ¬ ('"' : Char) = 't' by decide),
      if_neg (show ¬ ('"' : Char) = 'f' by decide),
      if_pos (show ('"' : Char) = '"' from rfl), if_true]
    rw [parseStrBody_escL]
    rfl
  | .num tok, hwf, fuel, rest, hfuel, hb => by
    have hf1 : 1 ≤ fuel := by simpa [needF] using hfuel
    obtain ⟨f, rfl⟩ : ∃ f, fuel = f + 1 := ⟨fuel - 1, by omega⟩
    obtain ⟨hne, hall, hg⟩ := wfNum_parts hwf
    obtain ⟨c, cs0, hc⟩ : ∃ c cs0, tok.data = c :: cs0 := by
      cases h : tok.data with
      | nil => exact absurd h hne
      | cons c cs0 => exact ⟨c, cs0, rfl⟩
    have hd := grammarNum_head (hc ▸ hg)
    obtain ⟨hws, hn, ht, hf, hq, hlb, hob, _, _, hnum⟩ := digit_head_facts hd
    have hsp := span_tok (c :: cs0) rest (by rw [← hc]; exact hall) hb
    rw [show marshalV (.num tok) = tok.data from rfl, hc,
      List.cons_append, parseV_succ, skipWs_cons _ hws]
    simp only [if_neg hn, if_neg ht, if_neg hf, if_neg hq, if_neg hlb,
      if_neg hob, if_pos hnum]
    rw [show (c :: (cs0 ++ rest)) = (c :: cs0) ++ rest from rfl,
      hsp.1, hsp.2, ← hc, if_pos hg]
  | .arr xs, hwf, fuel, rest, hfuel, hb => by
    have hf1 : 1 ≤ fuel := by
      have : needF (.arr xs) = 1 + needL xs := rfl
      omega
    obtain ⟨f, rfl⟩ : ∃ f, fuel = f + 1 := ⟨fuel - 1, by omega⟩
    have hfL : needL xs ≤ f := by
      have : needF (.arr xs) = 1 + needL xs := rfl
      omega
    have hsh : marshalV (.arr xs) ++ rest =
        '[' :: (marshalL xs ++ (']' :: rest)) := by
      show ('[' :: (marshalL xs ++ [']'])) ++ rest = _
      simp [List.append_assoc]
    rw [hsh, parseV_succ, skipWs_cons _ (by decide)]
    simp only [if_neg (show ¬ ('[' : Char) = 'n' by decide),
      if_neg (show ¬ ('[' : Char) = 't' by decide),
      if_neg (show ¬ ('[' : Char) = 'f' by decide),
      if_neg (show ¬ ('[' : Char) = '"' by decide),
      if_pos (show ('[' : Char) = '[' from rfl), if_true]
    cases xs with
    | nil =>
      rw [show marshalL ([] : List Json) ++ (']' :: rest) = ']' :: rest
        from rfl, skipWs_cons _ (by decide)]
      simp
    | cons x xs' =>
      have hwfl : wfL (x :: xs') = true := by simpa [wfJ] using hwf
      have hwx : wfJ x = true := by
        simp only [wfL, Bool.and_eq_true] at hwfl
        exact hwfl.1
      obtain ⟨c, cs', hhead, hws, hb1, hb2⟩ := marshalV_head x hwx
      obtain ⟨ds, hds⟩ : ∃ ds,
          marshalL (x :: xs') ++ (']' :: rest) = c :: ds := by
        cases xs' with
        | nil =>
          exact ⟨cs' ++ (']' :: rest), by
            rw [show marshalL [x] = marshalV x from rfl, hhead]
            simp⟩
        | cons y t =>
          exact ⟨(cs' ++ ',' :: marshalL (y :: t)) ++ (']' :: rest), by
            rw [show marshalL (x :: y :: t) =
              marshalV x ++ ',' :: marshalL (y :: t) from rfl, hhead]
            simp⟩
      have hskip : skipWs (marshalL (x :: xs') ++ (']' :: rest)) =
          marshalL (x :: xs') ++ (']' :: rest) := by
        rw [hds]
        exact skipWs_cons _ hws
      rw [hskip, if_neg (by rw [hds]; simp [hb1])]
      rw [roundElems (x :: xs') (by simp) hwfl f rest hfL hb]
      rfl
  | .obj kvs, hwf, fuel, rest, hfuel, hb => by
    have hf1 : 1 ≤ fuel := by
      have : needF (.obj kvs) = 1 + needKV kvs := rfl
      omega
    obtain ⟨f, rfl⟩ : ∃ f, fuel = f + 1 := ⟨fuel - 1, by omega⟩
    have hfL : needKV kvs ≤ f := by
      have : needF (.obj kvs) = 1 + needKV kvs := rfl
      omega
    have hsh : marshalV (.obj kvs) ++ rest =
        '\x7b' :: (marshalKVs kvs ++ ('\x7d' :: rest)) := by
      show ('\x7b' :: (marshalKVs kvs ++ ['\x7d'])) ++ rest = _
      simp [List.append_assoc]
    rw [hsh, parseV_succ, skipWs_cons _ (by decide)]
    simp only [if_neg (show ¬ ('\x7b' : Char) = 'n' by decide),
      if_neg (show ¬ ('\x7b' : Char) = 't' by decide),
      if_neg (show ¬ ('\x7b' : Char) = 'f' by decide),
      if_neg (show ¬ ('\x7b' : Char) = '"' by decide),
      if_neg (show ¬ ('\x7b' : Char) = '[' by decide),
      if_pos (show ('\x7b' : Char) = '\x7b' from rfl), if_true]
    cases kvs with
    | nil =>
      rw [show marshalKVs [] ++ ('\x7d' :: rest) = '\x7d' :: rest
        from rfl, skipWs_cons _ (by decide)]
      simp
    | cons p kvs' =>
      have hwfl : wfKVs (p :: kvs') = true := by simpa [wfJ] using hwf
      obtain ⟨ds, hds⟩ : ∃ ds,
          marshalKVs (p :: kvs') ++ ('\x7d' :: rest) = '"' :: ds := by
        rcases p with ⟨k, v⟩
        cases kvs' with
        | nil =>
          exact ⟨(escL k.data ++ '"' :: ':' :: marshalV v) ++
            ('\x7d' :: rest), by
            rw [show marshalKVs [(k, v)] =
              '"' :: (escStr k ++ '"' :: ':' :: marshalV v) from rfl]
            simp [escStr]⟩
        | cons p2 t =>
          exact ⟨((escStr k ++ '"' :: ':' :: marshalV v) ++
            ',' :: marshalKVs (p2 :: t)) ++ ('\x7d' :: rest), by
            rw [show marshalKVs ((k, v) :: p2 :: t) =
              ('"' :: (escStr k ++ '"' :: ':' :: marshalV v)) ++
                ',' :: marshalKVs (p2 :: t) from rfl]
            simp⟩
      have hskip : skipWs (marshalKVs (p :: kvs') ++ ('\x7d' :: rest)) =
          marshalKVs (p :: kvs') ++ ('\x7d' :: rest) := by
        rw [hds]
        exact skipWs_cons _ (by decide)
      rw [hskip, if_neg (by rw [hds]; simp)]
      rw [roundMembers (p :: kvs') (by simp) hwfl f rest hfL hb]
      rfl

theorem roundElems : ∀ (xs : List Json), xs ≠ [] → wfL xs = true →
    ∀ (fuel : Nat) (rest : List Char), needL xs ≤ fuel →
    (∀ c, rest.head? = some c → numChar c = false) →
    parseElems fuel (marshalL xs ++ ']' :: rest) = some (xs, rest)
  | [], hne, _, _, _, _, _ => absurd rfl hne
  | [x], _, hwf, fuel, rest, hfuel, hb => by
    have hwx : wfJ x = true := by
      simp only [wfL, Bool.and_eq_true] at hwf
      exact hwf.1
    have hf1 : 1 ≤ fuel := by
      have : needL [x] = 1 + max (needF x) (needL []) := rfl
      omega
    obtain ⟨f, rfl⟩ : ∃ f, fuel = f + 1 := ⟨fuel - 1, by omega⟩
    have hfx : needF x ≤ f := by
      have : needL [x] = 1 + max (needF x) (needL []) := rfl
      omega
    rw [parseElems_succ, show marshalL [x] = marshalV x from rfl,
      roundV x hwx f (']' :: rest) hfx
        (by intro c0 hc0; simp at hc0; subst hc0; rfl)]
    show (match skipWs (']' :: rest) with
      | ',' :: r2 => (parseElems f r2).map (fun p => (x :: p.1, p.2))
      | ']' :: r2 => some ([x], r2)
      | _ => none) = some ([x], rest)
    rw [skipWs_cons _ (by decide)]
    rfl
  | x :: y :: t, _, hwf, fuel, rest, hfuel, hb => by
    have hparts : wfJ x = true ∧ wfL (y :: t) = true := by
      simp only [wfL, Bool.and_eq_true] at hwf
      exact ⟨hwf.1, by simp [wfL, hwf.2.1, hwf.2.2]⟩
    have hf1 : 1 ≤ fuel := by
      have : needL (x :: y :: t) = 1 + max (needF x) (needL (y :: t)) := rfl
      omega
    obtain ⟨f, rfl⟩ : ∃ f, fuel = f + 1 := ⟨fuel - 1, by omega⟩
    have hfx : needF x ≤ f := by
      have : needL (x :: y :: t) = 1 + max (needF x) (needL (y :: t)) := rfl
      omega
    have hft : needL (y :: t) ≤ f := by
      have : needL (x :: y :: t) = 1 + max (needF x) (needL (y :: t)) := rfl
      omega
    rw [parseElems_succ, show marshalL (x :: y :: t) =
      marshalV x ++ ',' :: marshalL (y :: t) from rfl, List.append_assoc]
    simp only [List.cons_append]
    rw [roundV x hparts.1 f (',' :: (marshalL (y :: t) ++ ']' :: rest)) hfx
      (by intro c0 hc0; simp at hc0; subst hc0; rfl)]
    show (match skipWs (',' :: (marshalL (y :: t) ++ ']' :: rest)) with
      | ',' :: r2 => (parseElems f r2).map (fun p => (x :: p.1, p.2))
      | ']' :: r2 => some ([x], r2)
      | _ => none) = some (x :: y :: t, rest)
    rw [skipWs_cons _ (by decide)]
    show (parseElems f (marshalL (y :: t) ++ ']' :: rest)).map
      (fun p => (x :: p.1, p.2)) = some (x :: y :: t, rest)
    rw [roundElems (y :: t) (by simp) hparts.2 f rest hft hb]
    rfl

theorem roundMembers : ∀ (kvs : List (String × Json)), kvs ≠ [] →
    wfKVs kvs = true → ∀ (fuel : Nat) (rest : List Char),
    needKV kvs ≤ fuel →
    (∀ c, rest.head? = some c → numChar c = false) →
    parseMembers fuel (marshalKVs kvs ++ '\x7d' :: rest) =
      some (kvs, rest)
  | [], hne, _, _, _, _, _ => absurd rfl hne
  | [(k, v)], _, hwf, fuel, rest, hfuel, hb => by
    have hwv : wfJ v = true := by
      simp only [wfKVs, Bool.and_eq_true] at hwf
      exact hwf.1
    have hf1 : 1 ≤ fuel := by
      have : needKV [(k, v)] = 1 + max (needF v) (needKV []) := rfl
      omega
    obtain ⟨f, rfl⟩ : ∃ f, fuel = f + 1 := ⟨fuel - 1, by omega⟩
    have hfv : needF v ≤ f := by
      have : needKV [(k, v)] = 1 + max (needF v) (needKV []) := rfl
      omega
    have hsh : marshalKVs [(k, v)] ++ '\x7d' :: rest =
        '"' :: (escL k.data ++
          ('"' :: (':' :: (marshalV v ++ '\x7d' :: rest)))) := by
      rw [show marshalKVs [(k, v)] =
        '"' :: (escStr k ++ '"' :: ':' :: marshalV v) from rfl]
      simp [escStr, List.append_assoc]
    rw [hsh, parseMembers_succ, skipWs_cons _ (by decide)]
    show (match parseStrBody (escL k.data ++
        ('"' :: (':' :: (marshalV v ++ '\x7d' :: rest)))) with
      | some (k2, r) =>
        match skipWs r with
        | ':' :: r2 =>
          match parseV f r2 with
          | some (v2, r3) =>
            match skipWs r3 with
            | ',' :: r4 =>
              (parseMembers f r4).map
                (fun p => ((String.mk k2, v2) :: p.1, p.2))
            | '\x7d' :: r4 => some ([(String.mk k2, v2)], r4)
            | _ => none
          | none => none
        | _ => none
      | none => none) = some ([(k, v)], rest)
    rw [show escL k.data ++ ('"' :: (':' :: (marshalV v ++ '\x7d' ::
      rest))) = escL k.data ++ '"' :: (':' :: (marshalV v ++ '\x7d' ::
      rest)) from rfl, parseStrBody_escL k.data
      (':' :: (marshalV v ++ '\x7d' :: rest))]
    show (match skipWs (':' :: (marshalV v ++ '\x7d' :: rest)) with
      | ':' :: r2 =>
        match parseV f r2 with
        | some (v2, r3) =>
          match skipWs r3 with
          | ',' :: r4 =>
            (parseMembers f r4).map
              (fun p => ((String.mk k.data, v2) :: p.1, p.2))
          | '\x7d' :: r4 => some ([(String.mk k.data, v2)], r4)
          | _ => none
        | none => none
      | _ => none) = some ([(k, v)], rest)
    rw [skipWs_cons _ (by decide)]
    show (match parseV f (marshalV v ++ '\x7d' :: rest) with
      | some (v2, r3) =>
        match skipWs r3 with
        | ',' :: r4 =>
          (parseMembers f r4).map
            (fun p => ((String.mk k.data, v2) :: p.1, p.2))
        | '\x7d' :: r4 => some ([(String.mk k.data, v2)], r4)
        | _ => none
      | none => none) = some ([(k, v)], rest)
    rw [roundV v hwv f ('\x7d' :: rest) hfv
      (by intro c0 hc0; simp at hc0; subst hc0; rfl)]
    show (match skipWs ('\x7d' :: rest) with
      | ',' :: r4 =>
        (parseMembers f r4).map
          (fun p => ((String.mk k.data, v) :: p.1, p.2))
      | '\x7d' :: r4 => some ([(String.mk k.data, v)], r4)
      | _ => none) = some ([(k, v)], rest)
    rw [skipWs_cons _ (by decide)]
    rfl
  | (k, v) :: p2 :: t, _, hwf, fuel, rest, hfuel, hb => by
    have hparts : wfJ v = true ∧ wfKVs (p2 :: t) = true := by
      rcases p2 with ⟨k2, v2⟩
      simp only [wfKVs, Bool.and_eq_true] at hwf
      exact ⟨hwf.1, by simp [wfKVs, hwf.2.1, hwf.2.2]⟩
    have hf1 : 1 ≤ fuel := by
      have : needKV ((k, v) :: p2 :: t) =
        1 + max (needF v) (needKV (p2 :: t)) := rfl
      omega
    obtain ⟨f, rfl⟩ : ∃ f, fuel = f + 1 := ⟨fuel - 1, by omega⟩
    have hfv : needF v ≤ f := by
      have : needKV ((k, v) :: p2 :: t) =
        1 + max (needF v) (needKV (p2 :: t)) := rfl
      omega
    have hft : needKV (p2 :: t) ≤ f := by
      have : needKV ((k, v) :: p2 :: t) =
        1 + max (needF v) (needKV (p2 :: t)) := rfl
      omega
    have hsh : marshalKVs ((k, v) :: p2 :: t) ++ '\x7d' :: rest =
        '"' :: (escL k.data ++ ('"' :: (':' :: (marshalV v ++
          (',' :: (marshalKVs (p2 :: t) ++ '\x7d' :: rest)))))) := by
      rw [show marshalKVs ((k, v) :: p2 :: t) =
        ('"' :: (escStr k ++ '"' :: ':' :: marshalV v)) ++
          ',' :: marshalKVs (p2 :: t) from rfl]
      simp [escStr, List.append_assoc]
    rw [hsh, parseMembers_succ, skipWs_cons _ (by decide)]
    show (match parseStrBody (escL k.data ++
        ('"' :: (':' :: (marshalV v ++ (',' :: (marshalKVs (p2 :: t) ++
          '\x7d' :: rest)))))) with
      | some (k2, r) =>
        match skipWs r with
        | ':' :: r2 =>
          match parseV f r2 with
          | some (v2, r3) =>
            match skipWs r3 with
            | ',' :: r4 =>
              (parseMembers f r4).map
                (fun p => ((String.mk k2, v2) :: p.1, p.2))
            | '\x7d' :: r4 => some ([(String.mk k2, v2)], r4)
            | _ => none
          | none => none
        | _ => none
      | none => none) = some ((k, v) :: p2 :: t, rest)
    rw [show escL k.data ++ ('"' :: (':' :: (marshalV v ++ (',' ::
      (marshalKVs (p2 :: t) ++ '\x7d' :: rest))))) = escL k.data ++ '"' ::
      (':' :: (marshalV v ++ (',' :: (marshalKVs (p2 :: t) ++ '\x7d' ::
      rest)))) from rfl, parseStrBody_escL k.data
      (':' :: (marshalV v ++ (',' :: (marshalKVs (p2 :: t) ++ '\x7d' ::
        rest))))]
    show (match skipWs (':' :: (marshalV v ++ (',' :: (marshalKVs (p2 :: t)
        ++ '\x7d' :: rest)))) with
      | ':' :: r2 =>
        match parseV f r2 with
        | some (v2, r3) =>
          match skipWs r3 with
          | ',' :: r4 =>
            (parseMembers f r4).map
              (fun p => ((String.mk k.data, v2) :: p.1, p.2))
          | '\x7d' :: r4 => some ([(String.mk k.data, v2)], r4)
          | _ => none
        | none => none
      | _ => none) = some ((k, v) :: p2 :: t, rest)
    rw [skipWs_cons _ (by decide)]
    show (match parseV f (marshalV v ++ (',' :: (marshalKVs (p2 :: t) ++
        '\x7d' :: rest))) with
      | some (v2, r3) =>
        match skipWs r3 with
        | ',' :: r4 =>
          (parseMembers f r4).map
            (fun p => ((String.mk k.data, v2) :: p.1, p.2))
        | '\x7d' :: r4 => some ([(String.mk k.data, v2)], r4)
        | _ => none
      | none => none) = some ((k, v) :: p2 :: t, rest)
    rw [roundV v hparts.1 f
      (',' :: (marshalKVs (p2 :: t) ++ '\x7d' :: rest)) hfv
      (by intro c0 hc0; simp at hc0; subst hc0; rfl)]
    show (match skipWs (',' :: (marshalKVs (p2 :: t) ++ '\x7d' :: rest))
        with
      | ',' :: r4 =>
        (parseMembers f r4).map
          (fun p => ((String.mk k.data, v) :: p.1, p.2))
      | '\x7d' :: r4 => some ([(String.mk k.data, v)], r4)
      | _ => none) = some ((k, v) :: p2 :: t, rest)
    rw [skipWs_cons _ (by decide)]
    show (parseMembers f (marshalKVs (p2 :: t) ++ '\x7d' :: rest)).map
      (fun p => ((String.mk k.data, v) :: p.1, p.2)) =
      some ((k, v) :: p2 :: t, rest)
    rw [roundMembers (p2 :: t) (by simp) hparts.2 f rest hft hb]
    rfl
end

/-! ## Top-level marshal-parse round trip -/

theorem parseJson_marshal (v : Json) (hwf : wfJ v = true) :
    parseJson (marshalStr v) = some v := by
  have hb := needBound v hwf
  have hr := roundV v hwf (2 * (marshalStr v).length + 2) []
    (by
      have hlen : (marshalStr v).length = (marshalV v).length := rfl
      omega)
    (by intro c hc; simp at hc)
  rw [List.append_nil] at hr
  unfold parseJson
  rw [show (marshalStr v).data = marshalV v from rfl, hr]
  rfl

theorem parseJson_wf {s : String} {v : Json}
    (h : parseJson s = some v) : wfJ v = true := by
  unfold parseJson at h
  cases hp : parseV (2 * s.length + 2) s.data with
  | none =>
    rw [hp] at h
    have h2 : (none : Option Json) = some v := h
    simp at h2
  | some p =>
    rcases p with ⟨w, r⟩
    rw [hp] at h
    have h2 : (if (skipWs r).isEmpty then some w else none) = some v := h
    by_cases he : (skipWs r).isEmpty
    · rw [if_pos he] at h2
      have h3 := Option.some.inj h2
      subst h3
      exact (parseWf (2 * s.length + 2)).1 _ _ _ hp
    · rw [if_neg he] at h2
      simp at h2

/-! ## Sorted-insertion machinery for the object normalization -/

theorem ltKeys_cons (k : String) (v : Json) :
    ∀ t, ltKeys ((k, v) :: t) = (lbKeys k t && ltKeys t)
  | [] => rfl
  | (k2, y) :: t2 => rfl

theorem lbKeys_insertKeep (a k : String) (v : Json) (hak : a < k) :
    ∀ m, lbKeys a m = true → lbKeys a (insertKeep k v m) = true
  | [], _ => by simp [insertKeep, lbKeys, hak]
  | (k2, y) :: t, hm => by
    by_cases h1 : k < k2
    · simp [insertKeep, h1, lbKeys, hak]
    · by_cases h2 : k = k2
      · simpa [insertKeep, h1, h2, lbKeys] using hm
      · simpa [insertKeep, h1, h2, lbKeys] using hm

theorem insertKeep_of_lb (k : String) (v : Json) :
    ∀ t, lbKeys k t = true → insertKeep k v t = (k, v) :: t
  | [], _ => rfl
  | (k2, y) :: t2, h => by
    have hk : k < k2 := by simpa [lbKeys] using h
    simp [insertKeep, hk]

theorem ltKeys_insertKeep (k : String) (v : Json) :
    ∀ m, ltKeys m = true → ltKeys (insertKeep k v m) = true
  | [], _ => rfl
  | (k2, y) :: t, hm => by
    rw [ltKeys_cons, Bool.and_eq_true] at hm
    by_cases h1 : k < k2
    · rw [show insertKeep k v ((k2, y) :: t) = (k, v) :: (k2, y) :: t
        from by simp [insertKeep, h1]]
      rw [ltKeys_cons, Bool.and_eq_true]
      refine ⟨by simpa [lbKeys] using h1, ?_⟩
      rw [ltKeys_cons, Bool.and_eq_true]
      exact hm
    · by_cases h2 : k = k2
      · rw [show insertKeep k v ((k2, y) :: t) = (k2, y) :: t
          from by simp [insertKeep, h1, h2]]
        rw [ltKeys_cons, Bool.and_eq_true]
        exact hm
      · have hk2k : k2 < k := by
          rcases lt_trichotomy k k2 with h | h | h
          · exact absurd h h1
          · exact absurd h h2
          · exact h
        rw [show insertKeep k v ((k2, y) :: t) =
          (k2, y) :: insertKeep k v t from by simp [insertKeep, h1, h2]]
        rw [ltKeys_cons, Bool.and_eq_true]
        exact ⟨lbKeys_insertKeep k2 k v hk2k t hm.1,
          ltKeys_insertKeep k v t hm.2⟩

theorem ltKeys_toSorted : ∀ m, ltKeys (toSorted m) = true
  | [] => rfl
  | (k, x) :: t => by
    show ltKeys (insertKeep k x (toSorted t)) = true
    exact ltKeys_insertKeep k x (toSorted t) (ltKeys_toSorted t)

theorem toSorted_fix : ∀ m, ltKeys m = true → toSorted m = m
  | [], _ => rfl
  | (k, x) :: t, hm => by
    rw [ltKeys_cons, Bool.and_eq_true] at hm
    show insertKeep k x (toSorted t) = (k, x) :: t
    rw [toSorted_fix t hm.2]
    exact insertKeep_of_lb k x t hm.1

theorem toSorted_toSorted (m : List (String × Json)) :
    toSorted (toSorted m) = toSorted m :=
  toSorted_fix _ (ltKeys_toSorted m)

/-! ## Keys, well-formedness and canonicity under normalization -/

theorem keys_insertKeep (a k : String) (v : Json) :
    ∀ m, a ∈ (insertKeep k v m).map Prod.fst ↔
      (a = k ∨ a ∈ m.map Prod.fst)
  | [] => by simp [insertKeep]
  | (k2, y) :: t => by
    by_cases h1 : k < k2
    · simp [insertKeep, h1, List.mem_cons]
    · by_cases h2 : k = k2
      · subst h2
        simp [insertKeep, h1, List.mem_cons]
      · have ih := keys_insertKeep a k v t
        simp [insertKeep, h1, h2, List.mem_cons, ih]
        tauto

theorem keys_toSorted (a : String) :
    ∀ m : List (String × Json),
      a ∈ (toSorted m).map Prod.fst ↔ a ∈ m.map Prod.fst
  | [] => Iff.rfl
  | (k, x) :: t => by
    show a ∈ (insertKeep k x (toSorted t)).map Prod.fst ↔ _
    rw [keys_insertKeep, keys_toSorted a t]
    simp

theorem keys_normKVs : ∀ m : List (String × Json),
    (normKVs m).map Prod.fst = m.map Prod.fst
  | [] => rfl
  | (k, x) :: t => by
    show k :: (normKVs t).map Prod.fst = k :: t.map Prod.fst
    rw [keys_normKVs t]

theorem wfKVs_insertKeep (k : String) (v : Json) :
    ∀ m, wfJ v = true → wfKVs m = true →
      wfKVs (insertKeep k v m) = true
  | [], hv, _ => by simp [insertKeep, wfKVs, hv]
  | (k2, y) :: t, hv, hm => by
    simp only [wfKVs, Bool.and_eq_true] at hm
    have ih := wfKVs_insertKeep k v t hv hm.2
    by_cases h1 : k < k2
    · simp [insertKeep, h1, wfKVs, hv, hm.1, hm.2]
    · by_cases h2 : k = k2
      · simp [insertKeep, h1, h2, wfKVs, hm.1, hm.2]
      · simp [insertKeep, h1, h2, wfKVs, hm.1, ih]

theorem wfKVs_toSorted : ∀ m, wfKVs m = true →
    wfKVs (toSorted m) = true
  | [], _ => rfl
  | (k, x) :: t, hm => by
    simp only [wfKVs, Bool.and_eq_true] at hm
    show wfKVs (insertKeep k x (toSorted t)) = true
    exact wfKVs_insertKeep k x (toSorted t) hm.1 (wfKVs_toSorted t hm.2)

mutual
theorem wfJ_normJ : ∀ v : Json, wfJ v = true → wfJ (normJ v) = true
  | .null, _ => rfl
  | .bool b, _ => rfl
  | .num tok, h => h
  | .str s, _ => rfl
  | .arr xs, h => wfL_normL xs h
  | .obj kvs, h => wfKVs_toSorted _ (wfKVs_normKVs kvs h)

theorem wfL_normL : ∀ xs : List Json, wfL xs = true →
    wfL (normL xs) = true
  | [], _ => rfl
  | x :: xs, h => by
    simp only [wfL, Bool.and_eq_true] at h
    show (wfJ (normJ x) && wfL (normL xs)) = true
    rw [Bool.and_eq_true]
    exact ⟨wfJ_normJ x h.1, wfL_normL xs h.2⟩

theorem wfKVs_normKVs : ∀ m : List (String × Json), wfKVs m = true →
    wfKVs (normKVs m) = true
  | [], _ => rfl
  | (k, x) :: t, h => by
    simp only [wfKVs, Bool.and_eq_true] at h
    show (wfJ (normJ x) && wfKVs (normKVs t)) = true
    rw [Bool.and_eq_true]
    exact ⟨wfJ_normJ x h.1, wfKVs_normKVs t h.2⟩
end

theorem normKVs_insertKeep (k : String) (v : Json) :
    ∀ m, normKVs (insertKeep k v m) =
      insertKeep k (normJ v) (normKVs m)
  | [] => rfl
  | (k2, y) :: t => by
    have ih := normKVs_insertKeep k v t
    by_cases h1 : k < k2
    · simp [insertKeep, normKVs, h1]
    · by_cases h2 : k = k2
      · simp [insertKeep, normKVs, h1, h2]
      · simp [insertKeep, normKVs, h1, h2, ih]

theorem normKVs_toSorted_comm : ∀ m : List (String × Json),
    normKVs (toSorted m) = toSorted (normKVs m)
  | [] => rfl
  | (k, x) :: t => by
    show normKVs (insertKeep k x (toSorted t)) =
      insertKeep k (normJ x) (toSorted (normKVs t))
    rw [normKVs_insertKeep, normKVs_toSorted_comm t]

mutual
theorem normJ_idem : ∀ v : Json, normJ (normJ v) = normJ v
  | .null => rfl
  | .bool _ => rfl
  | .num _ => rfl
  | .str _ => rfl
  | .arr xs => congrArg Json.arr (normL_idem xs)
  | .obj kvs => by
    show Json.obj (toSorted (normKVs (toSorted (normKVs kvs)))) =
      Json.obj (toSorted (normKVs kvs))
    rw [normKVs_toSorted_comm, normKVs_idem kvs, toSorted_toSorted]

theorem normL_idem : ∀ xs : List Json, normL (normL xs) = normL xs
  | [] => rfl
  | x :: xs => by
    show normJ (normJ x) :: normL (normL xs) = normJ x :: normL xs
    rw [normJ_idem x, normL_idem xs]

theorem normKVs_idem : ∀ m : List (String × Json),
    normKVs (normKVs m) = normKVs m
  | [] => rfl
  | (k, x) :: t => by
    show (k, normJ (normJ x)) :: normKVs (normKVs t) =
      (k, normJ x) :: normKVs t
    rw [normJ_idem x, normKVs_idem t]
end

theorem canonKVs_insertKeep (k : String) (v : Json)
    (hv : canonJ v = true) :
    ∀ m, canonKVs m = true → canonKVs (insertKeep k v m) = true
  | [], _ => by simp [insertKeep, canonKVs, hv]
  | (k2, y) :: t, hm => by
    simp only [canonKVs, Bool.and_eq_true] at hm
    have ih := canonKVs_insertKeep k v hv t hm.2
    by_cases h1 : k < k2
    · simp [insertKeep, h1, canonKVs, hv, hm.1, hm.2]
    · by_cases h2 : k = k2
      · simp [insertKeep, h1, h2, canonKVs, hm.1, hm.2]
      · simp [insertKeep, h1, h2, canonKVs, hm.1, ih]

theorem canonKVs_toSorted : ∀ m, canonKVs m = true →
    canonKVs (toSorted m) = true
  | [], _ => rfl
  | (k, x) :: t, hm => by
    simp only [canonKVs, Bool.and_eq_true] at hm
    show canonKVs (insertKeep k x (toSorted t)) = true
    exact canonKVs_insertKeep k x hm.1 (toSorted t)
      (canonKVs_toSorted t hm.2)

mutual
theorem canonJ_normJ : ∀ v : Json, canonJ (normJ v) = true
  | .null => rfl
  | .bool _ => rfl
  | .num _ => rfl
  | .str _ => rfl
  | .arr xs => canonL_normL xs
  | .obj kvs => by
    show (ltKeys (toSorted (normKVs kvs)) &&
      canonKVs (toSorted (normKVs kvs))) = true
    rw [Bool.and_eq_true]
    exact ⟨ltKeys_toSorted _, canonKVs_toSorted _ (canonKVs_normKVs kvs)⟩

theorem canonL_normL : ∀ xs : List Json, canonL (normL xs) = true
  | [] => rfl
  | x :: xs => by
    show (canonJ (normJ x) && canonL (normL xs)) = true
    rw [Bool.and_eq_true]
    exact ⟨canonJ_normJ x, canonL_normL xs⟩

theorem canonKVs_normKVs : ∀ m : List (String × Json),
    canonKVs (normKVs m) = true
  | [] => rfl
  | (k, x) :: t => by
    show (canonJ (normJ x) && canonKVs (normKVs t)) = true
    rw [Bool.and_eq_true]
    exact ⟨canonJ_normJ x, canonKVs_normKVs t⟩
end

theorem isObjOrNull_normJ (v : Json) :
    isObjOrNull (normJ v) = isObjOrNull v := by
  cases v <;> rfl

/-! ## NewDocument (claims C3 and C10) -/

theorem takedrop_all {p : Char → Bool} :
    ∀ cs : List Char, cs.all p = true →
      cs.takeWhile p = cs ∧ cs.dropWhile p = []
  | [], _ => ⟨rfl, rfl⟩
  | c :: cs, h => by
    simp only [List.all_cons, Bool.and_eq_true] at h
    have ih := takedrop_all cs h.2
    simp [List.takeWhile_cons, List.dropWhile_cons, h.1, ih.1, ih.2]

theorem numOverflow_int {tok : String} (h : intTok tok = true) :
    numOverflow tok = false := by
  simp only [intTok, Bool.and_eq_true, decide_eq_true_eq] at h
  have htd := takedrop_all (stripNeg tok.data) h.1
  have hnv : numVal (stripNeg tok.data) =
      (digsNat (stripNeg tok.data), 0) := by
    unfold numVal
    rw [htd.1, htd.2]
    rfl
  unfold numOverflow
  rw [hnv]
  show numOverflowME (digsNat (stripNeg tok.data)) 0 = false
  by_cases hM : digsNat (stripNeg tok.data) = 0
  · simp [numOverflowME, hM]
  · have hlt16 : digsNat (stripNeg tok.data) < 10 ^ 16 := by
      have hc : (2:Nat) ^ 53 < 10 ^ 16 := by norm_num
      have h2 := h.2
      omega
    have hlog : Nat.log 10 (digsNat (stripNeg tok.data)) < 16 :=
      Nat.log_lt_of_lt_pow hM hlt16
    have hMlt : digsNat (stripNeg tok.data) < f64Lim := by
      have e1 : (2:Nat) ^ 53 < 2 ^ 970 :=
        Nat.pow_lt_pow_right (by norm_num) (by norm_num)
      have e3 : (2:Nat) ^ 971 ≤ 2 ^ 1024 :=
        Nat.pow_le_pow_right (by norm_num) (by norm_num)
      have e4 : (2:Nat) ^ 970 + 2 ^ 970 = 2 ^ 971 := by ring
      have h2 := h.2
      unfold f64Lim
      omega
    unfold numOverflowME
    rw [if_neg hM, if_neg (by omega), if_neg (by omega)]
    simp only [Int.toNat_zero, Int.neg_zero, pow_zero, mul_one, ge_iff_le,
      decide_eq_false_iff_not, not_le]
    exact hMlt

theorem depthKV_insertKeep (k : String) (v : Json) :
    ∀ m, depthKV (insertKeep k v m) ≤ max (depthJ v) (depthKV m)
  | [] => by simp [insertKeep, depthKV]
  | (k2, y) :: t => by
    have ih := depthKV_insertKeep k v t
    by_cases h1 : k < k2
    · rw [show insertKeep k v ((k2, y) :: t) = (k, v) :: (k2, y) :: t
        from by simp [insertKeep, h1]]
      simp only [depthKV]
      omega
    · by_cases h2 : k = k2
      · rw [show insertKeep k v ((k2, y) :: t) = (k2, y) :: t
          from by simp [insertKeep, h1, h2]]
        simp only [depthKV]
        omega
      · rw [show insertKeep k v ((k2, y) :: t) =
          (k2, y) :: insertKeep k v t from by simp [insertKeep, h1, h2]]
        simp only [depthKV]
        omega

theorem depthKV_toSorted : ∀ m, depthKV (toSorted m) ≤ depthKV m
  | [] => le_refl _
  | (k, x) :: t => by
    have ih := depthKV_toSorted t
    have h1 := depthKV_insertKeep k x (toSorted t)
    show depthKV (insertKeep k x (toSorted t)) ≤ _
    simp only [depthKV]
    omega

mutual
theorem depthJ_normJ : ∀ v : Json, depthJ (normJ v) ≤ depthJ v
  | .null => le_refl _
  | .bool _ => le_refl _
  | .num _ => le_refl _
  | .str _ => le_refl _
  | .arr xs => by
    have h1 := depthL_normL xs
    show 1 + depthL (normL xs) ≤ 1 + depthL xs
    omega
  | .obj kvs => by
    have h1 := depthKV_toSorted (normKVs kvs)
    have h2 := depthKV_normKVs kvs
    show 1 + depthKV (toSorted (normKVs kvs)) ≤ 1 + depthKV kvs
    omega

theorem depthL_normL : ∀ xs : List Json, depthL (normL xs) ≤ depthL xs
  | [] => le_refl _
  | x :: xs => by
    have h1 := depthJ_normJ x
    have h2 := depthL_normL xs
    show max (depthJ (normJ x)) (depthL (normL xs)) ≤ _
    simp only [depthL]
    omega

theorem depthKV_normKVs : ∀ m : List (String × Json),
    depthKV (normKVs m) ≤ depthKV m
  | [] => le_refl _
  | (k, x) :: t => by
    have h1 := depthJ_normJ x
    have h2 := depthKV_normKVs t
    show max (depthJ (normJ x)) (depthKV (normKVs t)) ≤ _
    simp only [depthKV]
    omega
end

theorem safeKVs_insertKeep (k : String) (v : Json) :
    ∀ m, safeJ v = true → safeKVs m = true →
      safeKVs (insertKeep k v m) = true
  | [], hv, _ => by simp [insertKeep, safeKVs, hv]
  | (k2, y) :: t, hv, hm => by
    simp only [safeKVs, Bool.and_eq_true] at hm
    have ih := safeKVs_insertKeep k v t hv hm.2
    by_cases h1 : k < k2
    · simp [insertKeep, h1, safeKVs, hv, hm.1, hm.2]
    · by_cases h2 : k = k2
      · simp [insertKeep, h1, h2, safeKVs, hm.1, hm.2]
      · simp [insertKeep, h1, h2, safeKVs, hm.1, ih]

theorem safeKVs_toSorted : ∀ m, safeKVs m = true →
    safeKVs (toSorted m) = true
  | [], _ => rfl
  | (k, x) :: t, hm => by
    simp only [safeKVs, Bool.and_eq_true] at hm
    show safeKVs (insertKeep k x (toSorted t)) = true
    exact safeKVs_insertKeep k x (toSorted t) hm.1
      (safeKVs_toSorted t hm.2)

mutual
theorem safeJ_normJ : ∀ v : Json, safeJ v = true → safeJ (normJ v) = true
  | .null, _ => rfl
  | .bool b, _ => rfl
  | .num tok, h => h
  | .str s, _ => rfl
  | .arr xs, h => safeL_normL xs h
  | .obj kvs, h => safeKVs_toSorted _ (safeKVs_normKVs kvs h)

theorem safeL_normL : ∀ xs : List Json, safeL xs = true →
    safeL (normL xs) = true
  | [], _ => rfl
  | x :: xs, h => by
    simp only [safeL, Bool.and_eq_true] at h
    show (safeJ (normJ x) && safeL (normL xs)) = true
    rw [Bool.and_eq_true]
    exact ⟨safeJ_normJ x h.1, safeL_normL xs h.2⟩

theorem safeKVs_normKVs : ∀ m : List (String × Json), safeKVs m = true →
    safeKVs (normKVs m) = true
  | [], _ => rfl
  | (k, x) :: t, h => by
    simp only [safeKVs, Bool.and_eq_true] at h
    show (safeJ (normJ x) && safeKVs (normKVs t)) = true
    rw [Bool.and_eq_true]
    exact ⟨safeJ_normJ x h.1, safeKVs_normKVs t h.2⟩
end

mutual
theorem okNumsJ_of_safe : ∀ v : Json, safeJ v = true → okNumsJ v = true
  | .null, _ => rfl
  | .bool _, _ => rfl
  | .str _, _ => rfl
  | .num tok, h => by
    show (!numOverflow tok) = true
    rw [numOverflow_int h]
    rfl
  | .arr xs, h => okNumsL_of_safe xs h
  | .obj kvs, h => okNumsKV_of_safe kvs h

theorem okNumsL_of_safe : ∀ xs : List Json, safeL xs = true →
    okNumsL xs = true
  | [], _ => rfl
  | x :: xs, h => by
    simp only [safeL, Bool.and_eq_true] at h
    show (okNumsJ x && okNumsL xs) = true
    rw [Bool.and_eq_true]
    exact ⟨okNumsJ_of_safe x h.1, okNumsL_of_safe xs h.2⟩

theorem okNumsKV_of_safe : ∀ m : List (String × Json),
    safeKVs m = true → okNumsKV m = true
  | [], _ => rfl
  | (k, x) :: t, h => by
    simp only [safeKVs, Bool.and_eq_true] at h
    show (okNumsJ x && okNumsKV t) = true
    rw [Bool.and_eq_true]
    exact ⟨okNumsJ_of_safe x h.1, okNumsKV_of_safe t h.2⟩
end

theorem unmarshalJson_of_parse {s : String} {v : Json}
    (hp : parseJson s = some v) (hd : depthJ v ≤ 10000)
    (hn : okNumsJ v = true) : unmarshalJson s = some v := by
  unfold unmarshalJson
  rw [hp]
  show (if goAccept v then some v else none) = some v
  rw [if_pos (show goAccept v = true by simp [goAccept, hd, hn])]

theorem newDocument_obj (c s body : String) (id : List Nat) (t : Int)
    (kvs : List (String × Json))
    (hp : unmarshalJson body = some (.obj kvs)) :
    newDocument c s body id t =
      .ok ⟨id, t, c, s,
        String.mk (marshalV (.obj (toSorted (normKVs kvs))))⟩ := by
  unfold newDocument
  rw [hp]
  rfl

/-- Counterexample to claim C3 as stated: the body "null" is valid JSON
whose top-level value is not an object, yet NewDocument returns a document
and no error, because json.Unmarshal accepts a top-level null into a nil
map; the stored Body is "null". -/
theorem newDocument_accepts_null_cex :
    parseJson "null" = some Json.null ∧
    (∀ kvs, Json.null ≠ Json.obj kvs) ∧
    newDocument "c" "s" "null" [] 0 =
      .ok ⟨[], 0, "c", "s", "null"⟩ :=
  ⟨rfl, fun _ h => Json.noConfusion h, rfl⟩

/-- Claim C3 (amended): NewDocument returns the unparsable-body error
exactly when json.Unmarshal rejects the body — malformed JSON, container
nesting beyond the scanner's 10000-level cap, or a number literal outside
float64 range — or the decoded top-level value is neither a JSON object
nor null (a top-level null is accepted into the nil map and yields a
document with Body "null"). -/
theorem newDocument_error_iff (c s body : String) (id : List Nat)
    (t : Int) :
    newDocument c s body id t = .error .errUnparsableJSON ↔
      (parseJson body = none ∨
        ∃ v, parseJson body = some v ∧
          (10000 < depthJ v ∨ okNumsJ v = false ∨
            isObjOrNull v = false)) := by
  cases hp : parseJson body with
  | none =>
    have hL : newDocument c s body id t = .error .errUnparsableJSON := by
      unfold newDocument unmarshalJson
      rw [hp]
    simp [hL]
  | some v =>
    have hu0 : unmarshalJson body =
        (if goAccept v then some v else none) := by
      unfold unmarshalJson
      rw [hp]
    by_cases hdep : depthJ v ≤ 10000
    · by_cases hnum : okNumsJ v = true
      · have hacc : goAccept v = true := by simp [goAccept, hdep, hnum]
        rw [hacc] at hu0
        simp at hu0
        have hred : newDocument c s body id t =
            (match normJ v with
              | Json.obj kvs2 =>
                Except.ok ⟨id, t, c, s,
                  String.mk (marshalV (.obj kvs2))⟩
              | Json.null => Except.ok ⟨id, t, c, s, "null"⟩
              | _ => Except.error DocErr.errUnparsableJSON) := by
          unfold newDocument
          rw [hu0]
        cases hv : normJ v with
        | null =>
          rw [hv] at hred
          have hio : isObjOrNull v = true := by
            rw [← isObjOrNull_normJ, hv]
            rfl
          rw [hred]
          simp [hio, hnum]
          omega
        | obj kvs2 =>
          rw [hv] at hred
          have hio : isObjOrNull v = true := by
            rw [← isObjOrNull_normJ, hv]
            rfl
          rw [hred]
          simp [hio, hnum]
          omega
        | bool b =>
          rw [hv] at hred
          have hio : isObjOrNull v = false := by
            rw [← isObjOrNull_normJ, hv]
            rfl
          rw [hred]
          simp [hio]
        | num tok =>
          rw [hv] at hred
          have hio : isObjOrNull v = false := by
            rw [← isObjOrNull_normJ, hv]
            rfl
          rw [hred]
          simp [hio]
        | str s2 =>
          rw [hv] at hred
          have hio : isObjOrNull v = false := by
            rw [← isObjOrNull_normJ, hv]
            rfl
          rw [hred]
          simp [hio]
        | arr xs =>
          rw [hv] at hred
          have hio : isObjOrNull v = false := by
            rw [← isObjOrNull_normJ, hv]
            rfl
          rw [hred]
          simp [hio]
      · have hnum2 : okNumsJ v = false := by
          revert hnum
          cases okNumsJ v <;> simp
        have hacc : goAccept v = false := by simp [goAccept, hnum2]
        rw [hacc] at hu0
        simp only [Bool.false_eq_true, if_false] at hu0
        have hL : newDocument c s body id t =
            .error .errUnparsableJSON := by
          unfold newDocument
          rw [hu0]
        simp [hL, hnum2]
    · have hdep2 : 10000 < depthJ v := Nat.lt_of_not_le hdep
      have hacc : goAccept v = false := by simp [goAccept, hdep]
      rw [hacc] at hu0
      simp only [Bool.false_eq_true, if_false] at hu0
      have hL : newDocument c s body id t =
          .error .errUnparsableJSON := by
        unfold newDocument
        rw [hu0]
      simp [hL, hdep2]

/-- Claim C10: for a body that json.Unmarshal accepts as a top-level
object (within the nesting cap) whose number literals are verbatim-stable
integers, the stored Body is the canonical re-encoding (keys strictly
sorted at every level, values normalized) of the decoded object; its keys
are exactly the input object's keys, so in particular no postedAt field is
added to the body (postedAt lives only on the outer record, as the
PostedAt parameter); the stored object stays in the verbatim-stable
fragment; and construction is idempotent: running NewDocument on a Body it
produced stores that same Body again. -/
theorem newDocument_canonical_body_idem
    (c s body : String) (id id2 : List Nat) (t t2 : Int)
    (kvs : List (String × Json))
    (hp : parseJson body = some (.obj kvs))
    (hd : depthJ (.obj kvs) ≤ 10000)
    (hsafe : safeJ (.obj kvs) = true) :
    newDocument c s body id t =
      .ok ⟨id, t, c, s, marshalStr (.obj (toSorted (normKVs kvs)))⟩ ∧
    canonJ (.obj (toSorted (normKVs kvs))) = true ∧
    (∀ a, a ∈ (toSorted (normKVs kvs)).map Prod.fst ↔
      a ∈ kvs.map Prod.fst) ∧
    ("postedAt" ∉ kvs.map Prod.fst →
      "postedAt" ∉ (toSorted (normKVs kvs)).map Prod.fst) ∧
    safeJ (.obj (toSorted (normKVs kvs))) = true ∧
    newDocument c s (marshalStr (.obj (toSorted (normKVs kvs)))) id2 t2 =
      .ok ⟨id2, t2, c, s,
        marshalStr (.obj (toSorted (normKVs kvs)))⟩ := by
  have hkeys : ∀ a, a ∈ (toSorted (normKVs kvs)).map Prod.fst ↔
      a ∈ kvs.map Prod.fst := by
    intro a
    rw [keys_toSorted, keys_normKVs]
  have hsafe2 : safeJ (.obj (toSorted (normKVs kvs))) = true :=
    safeJ_normJ (.obj kvs) hsafe
  have hu : unmarshalJson body = some (.obj kvs) :=
    unmarshalJson_of_parse hp hd (okNumsJ_of_safe _ hsafe)
  refine ⟨newDocument_obj c s body id t kvs hu, ?_, hkeys, ?_, hsafe2,
    ?_⟩
  · exact canonJ_normJ (.obj kvs)
  · intro hnp hmem
    exact hnp ((hkeys "postedAt").mp hmem)
  · have hwfn : wfJ (.obj (toSorted (normKVs kvs))) = true :=
      wfJ_normJ (.obj kvs) (parseJson_wf hp)
    have hp2 : parseJson (marshalStr (.obj (toSorted (normKVs kvs)))) =
        some (.obj (toSorted (normKVs kvs))) := parseJson_marshal _ hwfn
    have hd2 : depthJ (.obj (toSorted (normKVs kvs))) ≤ 10000 :=
      le_trans (depthJ_normJ (.obj kvs)) hd
    have hu2 : unmarshalJson (marshalStr (.obj (toSorted (normKVs kvs))))
        = some (.obj (toSorted (normKVs kvs))) :=
      unmarshalJson_of_parse hp2 hd2 (okNumsJ_of_safe _ hsafe2)
    have h2 := newDocument_obj c s
      (marshalStr (.obj (toSorted (normKVs kvs)))) id2 t2
      (toSorted (normKVs kvs)) hu2
    have hfix : toSorted (normKVs (toSorted (normKVs kvs))) =
        toSorted (normKVs kvs) := by
      have h3 : Json.obj (toSorted (normKVs (toSorted (normKVs kvs)))) =
          Json.obj (toSorted (normKVs kvs)) := normJ_idem (.obj kvs)
      injection h3
    rw [hfix] at h2
    exact h2

/-- Witness for the C10 theorem at a concrete single-key object body. -/
theorem newDocument_canonical_body_idem_witness :
    (parseJson "\x7b\"a\":1\x7d" =
        some (Json.obj [("a", Json.num "1")]) ∧
      depthJ (Json.obj [("a", Json.num "1")]) ≤ 10000 ∧
      safeJ (Json.obj [("a", Json.num "1")]) = true) ∧
    (newDocument "c" "s" "\x7b\"a\":1\x7d" [] 0 =
        .ok ⟨[], 0, "c", "s",
          marshalStr (.obj (toSorted (normKVs [("a", Json.num "1")])))⟩ ∧
      canonJ (.obj (toSorted (normKVs [("a", Json.num "1")]))) = true ∧
      (∀ a, a ∈ (toSorted (normKVs [("a", Json.num "1")])).map Prod.fst ↔
        a ∈ [("a", Json.num "1")].map Prod.fst) ∧
      ("postedAt" ∉ [("a", Json.num "1")].map Prod.fst →
        "postedAt" ∉
          (toSorted (normKVs [("a", Json.num "1")])).map Prod.fst) ∧
      safeJ (.obj (toSorted (normKVs [("a", Json.num "1")]))) = true ∧
      newDocument "c" "s"
          (marshalStr (.obj (toSorted (normKVs [("a", Json.num "1")]))))
          [] 0 =
        .ok ⟨[], 0, "c", "s",
          marshalStr (.obj (toSorted (normKVs [("a", Json.num "1")])))⟩) :=
  ⟨⟨rfl, by decide, by rfl⟩,
    newDocument_canonical_body_idem "c" "s" "\x7b\"a\":1\x7d" [] []
      0 0 [("a", Json.num "1")] rfl (by decide) (by rfl)⟩
